import Mathlib

/-!
# Verification of the Grapher math engine
Shallow embedding of `backend/core/math_engine.py` (expression normalization,
classification, validation, numeric evaluation, closed-form implicit solving)
and of the spec's segmenter, with theorems settling the frozen claims.

Strings are processed as `List Char`.  Python `re.sub` calls are embedded as
left-to-right, non-overlapping scanners, one hand-written matcher per regex
pattern of the source.  All matchers consume at least one character per match,
so a fuel argument equal to the input length makes every scan total.
-/

set_option maxRecDepth 100000

namespace Grapher

/-- Python regex class `[a-zA-Z]` (inputs are ASCII). -/
def isAlphaCh (c : Char) : Bool := c.isAlpha

/-- Python regex class `\d`. -/
def isDigitCh (c : Char) : Bool := c.isDigit

/-- Python regex class `\w` = `[a-zA-Z0-9_]` (ASCII inputs). -/
def isWordCh (c : Char) : Bool := c.isAlphanum || c = '_'

/-- Python regex class `\s` = `[ \t\n\r\f\v]`. -/
def isSpaceCh (c : Char) : Bool :=
  c = ' ' || c = '\t' || c = '\n' || c = '\r' || c = '\x0b' || c = '\x0c'

/-- `(?!\w)` lookahead: the next character (if any) is not a word character. -/
def nextNotWord : List Char → Bool
  | [] => true
  | c :: _ => !isWordCh c

/-- `(?!\()` lookahead: the next character (if any) is not `(`. -/
def nextNotLParen : List Char → Bool
  | [] => true
  | c :: _ => c ≠ '('

/-- `(?<!\w)` lookbehind / `\b` before a word character: the previous
character (if any) is not a word character. -/
def prevNotWord : Option Char → Bool
  | none => true
  | some c => !isWordCh c

/-- Strip a literal off the front of the input; `none` if it does not match. -/
def stripLit : List Char → List Char → Option (List Char)
  | [], cs => some cs
  | l :: ls, cs =>
    match cs with
    | [] => none
    | c :: cs' => if c = l then stripLit ls cs' else none

/-- Strip `\s*` (greedy) off the front of the input. -/
def stripSpaces : List Char → List Char
  | [] => []
  | c :: cs => if isSpaceCh c then stripSpaces cs else c :: cs

/-- Strip `\d+` (greedy): the digit run and the rest; `none` if no digit. -/
def stripDigits1 : List Char → Option (List Char × List Char)
  | [] => none
  | c :: cs =>
    if isDigitCh c then
      match stripDigits1 cs with
      | some (ds, rest) => some (c :: ds, rest)
      | none => some ([c], cs)
    else none

/-- Strip `[a-zA-Z]+` (greedy): the letter run and the rest; `none` if empty. -/
def stripAlphas1 : List Char → Option (List Char × List Char)
  | [] => none
  | c :: cs =>
    if isAlphaCh c then
      match stripAlphas1 cs with
      | some (ds, rest) => some (c :: ds, rest)
      | none => some ([c], cs)
    else none

/-- Strip `[^)]*` (greedy): the run of non-`)` characters and the rest. -/
def stripNonRParen : List Char → List Char × List Char
  | [] => ([], [])
  | c :: cs =>
    if c = ')' then ([], c :: cs)
    else
      match stripNonRParen cs with
      | (run, rest) => (c :: run, rest)

/-- A single pattern-match attempt at the current position: given the previous
input character (for lookbehind) and the input from the current position,
return `(replacement, last consumed character, rest of input)` on a match. -/
def Matcher : Type := Option Char → List Char → Option (List Char × Char × List Char)

/-- The scanning loop of Python `re.sub`: try the matcher at every position,
left to right, non-overlapping, resuming after each match. -/
def reSubGo (tm : Matcher) : Nat → Option Char → List Char → List Char
  | _, _, [] => []
  | 0, _, cs => cs
  | fuel + 1, prev, c :: cs =>
    match tm prev (c :: cs) with
    | some (repl, lastC, rest) => repl ++ reSubGo tm fuel (some lastC) rest
    | none => c :: reSubGo tm fuel (some c) cs

/-- Python `re.sub(pattern, repl, s)` for a hand-embedded pattern. -/
def reSub (tm : Matcher) (cs : List Char) : List Char :=
  reSubGo tm cs.length none cs

/-- Python `str.replace(lit, rep)` (all occurrences, left to right). -/
def replaceAllGo (lit rep : List Char) : Nat → List Char → List Char
  | _, [] => []
  | 0, cs => cs
  | fuel + 1, c :: cs =>
    match stripLit lit (c :: cs) with
    | some rest => rep ++ replaceAllGo lit rep fuel rest
    | none => c :: replaceAllGo lit rep fuel cs

/-- Python `str.replace` on `List Char` (for nonempty `lit`). -/
def replaceAll (lit rep cs : List Char) : List Char :=
  replaceAllGo lit rep cs.length cs

/-! ## The implicit-multiplication expander
Embedding of `ExpressionParser.add_implicit_multiplication`, one matcher per
`re.sub` pattern, applied in the exact order of the source. -/

/-- `MATH_FUNCTIONS`' keys in the order of the `function_names` list of
`add_implicit_multiplication`. -/
def function_names : List String :=
  ["sin", "cos", "tan", "log", "exp", "sqrt", "abs", "asin", "acos", "atan",
   "sinh", "cosh", "tanh", "log10", "log2", "floor", "ceil", "round", "sign"]

/-- Pattern `{func}([a-zA-Z])(?!\w)` → `{func}(\1)` (steps 1 and 4.5). -/
def pFuncLetter (fn : List Char) : Matcher := fun _ cs =>
  match stripLit fn cs with
  | none => none
  | some rest1 =>
    match rest1 with
    | c :: rest2 =>
      if isAlphaCh c && nextNotWord rest2 then
        some (fn ++ '(' :: c :: [')'], c, rest2)
      else none
    | [] => none

/-- Pattern `(\d+){func}\s*\(` → `\1*{func}(` (step 2, first). -/
def pNumFuncParen (fn : List Char) : Matcher := fun _ cs =>
  match stripDigits1 cs with
  | none => none
  | some (ds, rest1) =>
    match stripLit fn rest1 with
    | none => none
    | some rest2 =>
      match stripSpaces rest2 with
      | '(' :: rest3 => some (ds ++ '*' :: fn ++ ['('], '(', rest3)
      | _ => none

/-- Pattern `(\d+){func}(?!\w)` → `\1*{func}` (step 2, second). -/
def pNumFunc (fn : List Char) : Matcher := fun _ cs =>
  match stripDigits1 cs with
  | none => none
  | some (ds, rest1) =>
    match stripLit fn rest1 with
    | none => none
    | some rest2 =>
      if nextNotWord rest2 then
        some (ds ++ '*' :: fn, fn.getLastD '*', rest2)
      else none

/-- Pattern `([a-zA-Z]){func}\s*\(` → `\1*{func}(` (step 3, first). -/
def pLetterFuncParen (fn : List Char) : Matcher := fun _ cs =>
  match cs with
  | [] => none
  | c :: rest0 =>
    if isAlphaCh c then
      match stripLit fn rest0 with
      | none => none
      | some rest1 =>
        match stripSpaces rest1 with
        | '(' :: rest2 => some (c :: '*' :: fn ++ ['('], '(', rest2)
        | _ => none
    else none

/-- Pattern `([a-zA-Z]){func}([a-zA-Z])(?!\w)` → `\1*{func}(\2)` (step 3, second). -/
def pLetterFuncLetter (fn : List Char) : Matcher := fun _ cs =>
  match cs with
  | [] => none
  | c :: rest0 =>
    if isAlphaCh c then
      match stripLit fn rest0 with
      | none => none
      | some rest1 =>
        match rest1 with
        | d :: rest2 =>
          if isAlphaCh d && nextNotWord rest2 then
            some (c :: '*' :: fn ++ '(' :: d :: [')'], d, rest2)
          else none
        | [] => none
    else none

/-- Pattern `([a-zA-Z]){func}(?!\w)(?!\()` → `\1*{func}` (step 3, third). -/
def pLetterFunc (fn : List Char) : Matcher := fun _ cs =>
  match cs with
  | [] => none
  | c :: rest0 =>
    if isAlphaCh c then
      match stripLit fn rest0 with
      | none => none
      | some rest1 =>
        if nextNotWord rest1 && nextNotLParen rest1 then
          some (c :: '*' :: fn, fn.getLastD '*', rest1)
        else none
    else none

/-- Strip `{f1}\([^)]*\)`, returning the full matched call text and the rest. -/
def stripCall (f1 : List Char) (cs : List Char) : Option (List Char × List Char) :=
  match stripLit f1 cs with
  | none => none
  | some rest1 =>
    match rest1 with
    | [] => none
    | c :: rest2 =>
      if c = '(' then
        match stripNonRParen rest2 with
        | (run, rest) =>
          match rest with
          | [] => none
          | c2 :: rest3 =>
            if c2 = ')' then some (f1 ++ '(' :: run ++ [')'], rest3) else none
      else none

/-- Pattern `({f1}\([^)]*\))({f2})([a-zA-Z])(?!\w)` → `\1*\2(\3)` (step 4, first). -/
def pCallFuncLetter (f1 f2 : List Char) : Matcher := fun _ cs =>
  match stripCall f1 cs with
  | none => none
  | some (call1, rest1) =>
    match stripLit f2 rest1 with
    | none => none
    | some rest2 =>
      match rest2 with
      | d :: rest3 =>
        if isAlphaCh d && nextNotWord rest3 then
          some (call1 ++ '*' :: f2 ++ '(' :: d :: [')'], d, rest3)
        else none
      | [] => none

/-- Pattern `({f1}\([^)]*\))({f2})\s*\(` → `\1*\2(` (step 4, second). -/
def pCallFuncParen (f1 f2 : List Char) : Matcher := fun _ cs =>
  match stripCall f1 cs with
  | none => none
  | some (call1, rest1) =>
    match stripLit f2 rest1 with
    | none => none
    | some rest2 =>
      match stripSpaces rest2 with
      | '(' :: rest3 => some (call1 ++ '*' :: f2 ++ ['('], '(', rest3)
      | _ => none

/-- Pattern `({f1}\([^)]*\))({f2})\s*\(\s*([a-zA-Z]+)\s*\)` → `\1*\2(\3)`
(step 4, third). -/
def pCallFuncCall (f1 f2 : List Char) : Matcher := fun _ cs =>
  match stripCall f1 cs with
  | none => none
  | some (call1, rest1) =>
    match stripLit f2 rest1 with
    | none => none
    | some rest2 =>
      match stripSpaces rest2 with
      | '(' :: rest3 =>
        match stripAlphas1 (stripSpaces rest3) with
        | none => none
        | some (arg, rest4) =>
          match stripSpaces rest4 with
          | ')' :: rest5 =>
            some (call1 ++ '*' :: f2 ++ '(' :: arg ++ [')'], ')', rest5)
          | _ => none
      | _ => none

/-- Pattern `(\d)([a-zA-Z])` → `\1*\2` (step 5). -/
def pDigitLetter : Matcher := fun _ cs =>
  match cs with
  | c :: d :: rest =>
    if isDigitCh c && isAlphaCh d then some ([c, '*', d], d, rest) else none
  | _ => none

/-- Pattern `([a-zA-Z])(\d)` → `\1*\2` (step 5). -/
def pLetterDigit : Matcher := fun _ cs =>
  match cs with
  | c :: d :: rest =>
    if isAlphaCh c && isDigitCh d then some ([c, '*', d], d, rest) else none
  | _ => none

/-- Pattern `(\d)\s*\(` → `\1*(` (step 5). -/
def pDigitParen : Matcher := fun _ cs =>
  match cs with
  | c :: rest0 =>
    if isDigitCh c then
      match stripSpaces rest0 with
      | '(' :: rest1 => some ([c, '*', '('], '(', rest1)
      | _ => none
    else none
  | [] => none

/-- The sentinel Python builds as `f'FUNC_{func}_CALL_'`. -/
def maskToken (fn : List Char) : List Char :=
  "FUNC_".data ++ fn ++ "_CALL_".data

/-- Pattern `\b{func}\s*\(` → `FUNC_{func}_CALL_` (step 5 masking).  Since a
function name starts with a letter, `\b` here means the previous character is
absent or not a word character. -/
def pMaskFunc (fn : List Char) : Matcher := fun prev cs =>
  if prevNotWord prev then
    match stripLit fn cs with
    | none => none
    | some rest1 =>
      match stripSpaces rest1 with
      | '(' :: rest2 => some (maskToken fn, '(', rest2)
      | _ => none
  else none

/-- Pattern `([a-zA-Z])\s*\(` → `\1*(` (step 5). -/
def pLetterParen : Matcher := fun _ cs =>
  match cs with
  | c :: rest0 =>
    if isAlphaCh c then
      match stripSpaces rest0 with
      | '(' :: rest1 => some ([c, '*', '('], '(', rest1)
      | _ => none
    else none
  | [] => none

/-- Pattern `\)(\d)` → `)*\1` (step 5). -/
def pRParenDigit : Matcher := fun _ cs =>
  match cs with
  | ')' :: d :: rest =>
    if isDigitCh d then some ([')', '*', d], d, rest) else none
  | _ => none

/-- Pattern `\)([a-zA-Z])` → `)*\1` (step 5). -/
def pRParenLetter : Matcher := fun _ cs =>
  match cs with
  | ')' :: d :: rest =>
    if isAlphaCh d then some ([')', '*', d], d, rest) else none
  | _ => none

/-- Pattern `\)\s*\(` → `)*(` (step 5). -/
def pRParenLParen : Matcher := fun _ cs =>
  match cs with
  | ')' :: rest0 =>
    match stripSpaces rest0 with
    | '(' :: rest1 => some ([')', '*', '('], '(', rest1)
    | _ => none
  | _ => none

/-- Pattern `(?<!\w)([a-zA-Z])([a-zA-Z])(?!\w)` → `\1*\2` (step 6). -/
def pLetterPair : Matcher := fun prev cs =>
  if prevNotWord prev then
    match cs with
    | c :: d :: rest =>
      if isAlphaCh c && isAlphaCh d && nextNotWord rest then
        some ([c, '*', d], d, rest)
      else none
    | _ => none
  else none

/-- Steps 1-3 of `add_implicit_multiplication`: the function-letter,
number-function and letter-function rewrites, in source order. -/
def aimStepA (expression : List Char) : List Char :=
  -- Step 1: sinx -> sin(x)
  let r := function_names.foldl (fun r fn => reSub (pFuncLetter fn.data) r) expression
  -- Step 2: 2sin(x) -> 2*sin(x); 2sin -> 2*sin
  let r := function_names.foldl
    (fun r fn => reSub (pNumFunc fn.data) (reSub (pNumFuncParen fn.data) r)) r
  -- Step 3: xsin( -> x*sin(; xcosy -> x*cos(y); xsin -> x*sin
  function_names.foldl
    (fun r fn =>
      reSub (pLetterFunc fn.data)
        (reSub (pLetterFuncLetter fn.data) (reSub (pLetterFuncParen fn.data) r))) r

/-- Step 4 of `add_implicit_multiplication` restricted to outer-loop names
`fns` (the inner loop always runs over all of `function_names`). -/
def aimStep4Group (fns : List String) (r : List Char) : List Char :=
  fns.foldl
    (fun r f1 =>
      function_names.foldl
        (fun r f2 =>
          reSub (pCallFuncCall f1.data f2.data)
            (reSub (pCallFuncParen f1.data f2.data)
              (reSub (pCallFuncLetter f1.data f2.data) r))) r) r

/-- Steps 4.5-6 of `add_implicit_multiplication`: leftover function-letter
rewrites, the digit/letter/parenthesis rules with function-call masking, and
the two isolated-letter-pair passes. -/
def aimStepB (r0 : List Char) : List Char :=
  -- Step 4.5: leftover sinx -> sin(x)
  let r := function_names.foldl (fun r fn => reSub (pFuncLetter fn.data) r) r0
  -- Step 5: 2x -> 2*x; x2 -> x*2; 2( -> 2*(
  let r := reSub pDigitLetter r
  let r := reSub pLetterDigit r
  let r := reSub pDigitParen r
  -- Step 5: mask func( , rewrite letter( , unmask
  let r := function_names.foldl (fun r fn => reSub (pMaskFunc fn.data) r) r
  let r := reSub pLetterParen r
  let r := function_names.foldl
    (fun r fn => replaceAll (maskToken fn.data) (fn.data ++ ['(']) r) r
  -- Step 5: )2 -> )*2; )y -> )*y; )( -> )*(
  let r := reSub pRParenDigit r
  let r := reSub pRParenLetter r
  let r := reSub pRParenLParen r
  -- Step 6: isolated letter pairs, applied twice
  let r := reSub pLetterPair r
  reSub pLetterPair r

/-- `ExpressionParser.add_implicit_multiplication`, on `List Char`. -/
def aimChars (expression : List Char) : List Char :=
  aimStepB (aimStep4Group function_names (aimStepA expression))

/-- `ExpressionParser.add_implicit_multiplication`. -/
def add_implicit_multiplication (expression : String) : String :=
  ⟨aimChars expression.data⟩

/-- Splitting the step-4 outer loop. -/
theorem aimStep4Group_append (l₁ l₂ : List String) (r : List Char) :
    aimStep4Group (l₁ ++ l₂) r = aimStep4Group l₂ (aimStep4Group l₁ r) := by
  simp [aimStep4Group, List.foldl_append]

/-- The 19 outer-loop names split into four groups of at most five. -/
theorem aimChars_stages (expression : List Char) :
    aimChars expression =
      aimStepB
        (aimStep4Group ["floor", "ceil", "round", "sign"]
          (aimStep4Group ["sinh", "cosh", "tanh", "log10", "log2"]
            (aimStep4Group ["sqrt", "abs", "asin", "acos", "atan"]
              (aimStep4Group ["sin", "cos", "tan", "log", "exp"]
                (aimStepA expression))))) := by
  have h : function_names =
      (["sin", "cos", "tan", "log", "exp"] ++ ["sqrt", "abs", "asin", "acos", "atan"]) ++
        (["sinh", "cosh", "tanh", "log10", "log2"] ++ ["floor", "ceil", "round", "sign"]) := rfl
  rw [aimChars, h, aimStep4Group_append, aimStep4Group_append, aimStep4Group_append]

/-- A scan leaves the input unchanged when an invariant `P`, inherited by
tails, rules out every match. -/
theorem reSubGo_of_inv (tm : Matcher) (P : List Char → Prop)
    (hstep : ∀ c cs, P (c :: cs) → P cs)
    (hnone : ∀ p cs, P cs → tm p cs = none) :
    ∀ fuel p cs, P cs → reSubGo tm fuel p cs = cs := by
  intro fuel
  induction fuel with
  | zero => intro p cs _; cases cs <;> rfl
  | succ n ih =>
    intro p cs hP
    cases cs with
    | nil => rfl
    | cons c cs' =>
      rw [reSubGo, hnone p (c :: cs') hP]
      exact congrArg (c :: ·) (ih (some c) cs' (hstep c cs' hP))

theorem reSub_of_inv (tm : Matcher) (P : List Char → Prop)
    (hstep : ∀ c cs, P (c :: cs) → P cs)
    (hnone : ∀ p cs, P cs → tm p cs = none) (cs : List Char) (hP : P cs) :
    reSub tm cs = cs :=
  reSubGo_of_inv tm P hstep hnone cs.length none cs hP

theorem stripLit_mem (l : List Char) :
    ∀ cs r x, stripLit l cs = some r → x ∈ r → x ∈ cs := by
  induction l with
  | nil =>
    intro cs r x h hx
    rw [stripLit] at h
    cases h
    exact hx
  | cons a as ih =>
    intro cs r x h hx
    cases cs with
    | nil => rw [stripLit] at h; cases h
    | cons c cs' =>
      rw [stripLit] at h
      split at h
      · exact List.mem_cons_of_mem c (ih cs' r x h hx)
      · cases h

theorem stripCall_of_no_lparen (f1 cs : List Char) (h : '(' ∉ cs) :
    stripCall f1 cs = none := by
  rw [stripCall]
  cases hl : stripLit f1 cs with
  | none => rfl
  | some rest1 =>
    cases rest1 with
    | nil => rfl
    | cons c cs' =>
      have hc : c ≠ '(' := by
        intro hc
        exact h (stripLit_mem f1 cs (c :: cs') '(' hl (hc ▸ List.mem_cons_self c cs'))
      simp only [if_neg hc]

/-- Step 4 rewrites nothing in a string that contains no `(`. -/
theorem aimStep4Group_of_no_lparen (fns : List String) (r : List Char)
    (h : '(' ∉ r) : aimStep4Group fns r = r := by
  have inner : ∀ (f1 : String) (l : List String) (s : List Char), '(' ∉ s →
      List.foldl
        (fun r f2 =>
          reSub (pCallFuncCall f1.data f2.data)
            (reSub (pCallFuncParen f1.data f2.data)
              (reSub (pCallFuncLetter f1.data f2.data) r))) s l = s := by
    intro f1 l
    induction l with
    | nil => intro s _; rfl
    | cons f2 fs ih =>
      intro s hs
      have hstep : ∀ (c : Char) (cs : List Char), '(' ∉ c :: cs → '(' ∉ cs :=
        fun c cs hmem hin => hmem (List.mem_cons_of_mem c hin)
      have h1 : reSub (pCallFuncLetter f1.data f2.data) s = s := by
        refine reSub_of_inv _ (fun cs => '(' ∉ cs) hstep ?_ s hs
        intro p cs hP
        rw [pCallFuncLetter, stripCall_of_no_lparen _ _ hP]
      have h2 : reSub (pCallFuncParen f1.data f2.data) s = s := by
        refine reSub_of_inv _ (fun cs => '(' ∉ cs) hstep ?_ s hs
        intro p cs hP
        rw [pCallFuncParen, stripCall_of_no_lparen _ _ hP]
      have h3 : reSub (pCallFuncCall f1.data f2.data) s = s := by
        refine reSub_of_inv _ (fun cs => '(' ∉ cs) hstep ?_ s hs
        intro p cs hP
        rw [pCallFuncCall, stripCall_of_no_lparen _ _ hP]
      rw [List.foldl_cons, h1, h2, h3, ih s hs]
  induction fns with
  | nil => rfl
  | cons f1 fs ih => rw [aimStep4Group, List.foldl_cons, inner f1 _ r h, ← aimStep4Group, ih]

/-- No `)` immediately followed by a letter anywhere in the string. -/
def noCloseAlpha : List Char → Bool
  | [] => true
  | [_] => true
  | c :: d :: rest => !(c = ')' && isAlphaCh d) && noCloseAlpha (d :: rest)

theorem noCloseAlpha_tail {c : Char} {cs : List Char}
    (h : noCloseAlpha (c :: cs) = true) : noCloseAlpha cs = true := by
  cases cs with
  | nil => rfl
  | cons d rest =>
    rw [noCloseAlpha, Bool.and_eq_true] at h
    exact h.2

theorem stripLit_eq_append : ∀ (l cs r : List Char),
    stripLit l cs = some r → cs = l ++ r := by
  intro l
  induction l with
  | nil =>
    intro cs r h
    rw [stripLit] at h
    cases h
    rfl
  | cons a as ih =>
    intro cs r h
    cases cs with
    | nil => rw [stripLit] at h; cases h
    | cons c cs' =>
      rw [stripLit] at h
      split at h
      · rename_i hc
        subst hc
        exact congrArg (c :: ·) (ih cs' r h)
      · cases h

theorem stripNonRParen_eq_append : ∀ (cs : List Char),
    cs = (stripNonRParen cs).1 ++ (stripNonRParen cs).2 := by
  intro cs
  induction cs with
  | nil => rfl
  | cons c cs' ih =>
    by_cases hc : c = ')'
    · rw [stripNonRParen, if_pos hc]
      rfl
    · cases hr : stripNonRParen cs' with
      | mk run rest =>
        rw [hr] at ih
        rw [stripNonRParen, if_neg hc, hr]
        exact congrArg (c :: ·) ih

theorem stripCall_close (f1 cs call1 rest : List Char)
    (h : stripCall f1 cs = some (call1, rest)) :
    ∃ pre, cs = pre ++ ')' :: rest := by
  rw [stripCall] at h
  cases hl : stripLit f1 cs with
  | none => rw [hl] at h; cases h
  | some rest1 =>
    rw [hl] at h
    cases rest1 with
    | nil => cases h
    | cons c rest2 =>
      simp only [] at h
      by_cases hc : c = '('
      · rw [if_pos hc] at h
        subst hc
        cases hr : stripNonRParen rest2 with
        | mk run rest' =>
          rw [hr] at h
          simp only [] at h
          cases rest' with
          | nil => cases h
          | cons c2 rest3 =>
            simp only [] at h
            by_cases hc2 : c2 = ')'
            · rw [if_pos hc2] at h
              subst hc2
              cases h
              refine ⟨f1 ++ '(' :: run, ?_⟩
              have h2 := stripNonRParen_eq_append rest2
              rw [hr] at h2
              rw [stripLit_eq_append f1 cs _ hl, h2]
              simp
            · rw [if_neg hc2] at h; cases h
      · rw [if_neg hc] at h; cases h

theorem noCloseAlpha_no_close_alpha : ∀ (pre : List Char) {d : Char}
    (rest : List Char), isAlphaCh d = true →
    noCloseAlpha (pre ++ ')' :: d :: rest) = false := by
  intro pre
  induction pre with
  | nil =>
    intro d rest hd
    simp [noCloseAlpha, hd]
  | cons c cs ih =>
    intro d rest hd
    cases hcs : cs ++ ')' :: d :: rest with
    | nil => simp at hcs
    | cons e es =>
      rw [List.cons_append, hcs]
      simp only [noCloseAlpha]
      rw [← hcs, ih rest hd]
      simp

/-- Under `noCloseAlpha`, a step-4 `{f1}\(..\)` match is never followed by a
function name, so the second literal of each step-4 pattern fails. -/
theorem stripLit_after_call {f1 cs call1 rest1 : List Char} {d : Char}
    (fs : List Char) (hnc : noCloseAlpha cs = true)
    (hsc : stripCall f1 cs = some (call1, rest1)) (hd : isAlphaCh d = true) :
    stripLit (d :: fs) rest1 = none := by
  cases hsl : stripLit (d :: fs) rest1 with
  | none => rfl
  | some rest2 =>
    obtain ⟨pre, hpre⟩ := stripCall_close f1 cs call1 rest1 hsc
    rw [stripLit_eq_append (d :: fs) rest1 rest2 hsl, List.cons_append] at hpre
    rw [hpre, noCloseAlpha_no_close_alpha pre (fs ++ rest2) hd] at hnc
    cases hnc

/-- A function name: nonempty and letter-headed. -/
def headAlpha (f : String) : Bool :=
  match f.data with
  | c :: _ => isAlphaCh c
  | [] => false

/-- Step 4 rewrites nothing in a string where no `)` is followed by a letter
(every step-4 pattern needs a call group immediately followed by a name). -/
theorem aimStep4Group_of_no_close_alpha (fns : List String) (r : List Char)
    (h : noCloseAlpha r = true) : aimStep4Group fns r = r := by
  have mnone : ∀ (f1 f2 : String), headAlpha f2 = true →
      ∀ (p : Option Char) (cs : List Char), noCloseAlpha cs = true →
        pCallFuncLetter f1.data f2.data p cs = none ∧
        pCallFuncParen f1.data f2.data p cs = none ∧
        pCallFuncCall f1.data f2.data p cs = none := by
    intro f1 f2 hf2 p cs hnc
    cases hdata : f2.data with
    | nil =>
      simp only [headAlpha, hdata] at hf2
      cases hf2
    | cons d fs =>
      simp only [headAlpha, hdata] at hf2
      cases hsc : stripCall f1.data cs with
      | none =>
        simp only [pCallFuncLetter, pCallFuncParen, pCallFuncCall, hsc]
        exact ⟨trivial, trivial, trivial⟩
      | some pr =>
        obtain ⟨call1, rest1⟩ := pr
        have hnone : stripLit (d :: fs) rest1 = none :=
          stripLit_after_call fs hnc hsc hf2
        simp only [pCallFuncLetter, pCallFuncParen, pCallFuncCall, hsc, hnone]
        exact ⟨trivial, trivial, trivial⟩
  have inner : ∀ (f1 : String) (l : List String), (∀ f2 ∈ l, headAlpha f2 = true) →
      ∀ (s : List Char), noCloseAlpha s = true →
      List.foldl
        (fun r f2 =>
          reSub (pCallFuncCall f1.data f2.data)
            (reSub (pCallFuncParen f1.data f2.data)
              (reSub (pCallFuncLetter f1.data f2.data) r))) s l = s := by
    intro f1 l
    induction l with
    | nil => intro _ s _; rfl
    | cons f2 fs ih =>
      intro hl s hs
      have hstep : ∀ (c : Char) (cs : List Char),
          noCloseAlpha (c :: cs) = true → noCloseAlpha cs = true :=
        fun c cs => noCloseAlpha_tail
      have hf2 := hl f2 (List.mem_cons_self f2 fs)
      have h1 : reSub (pCallFuncLetter f1.data f2.data) s = s := by
        refine reSub_of_inv _ (fun cs => noCloseAlpha cs = true) hstep ?_ s hs
        intro p cs hP
        exact (mnone f1 f2 hf2 p cs hP).1
      have h2 : reSub (pCallFuncParen f1.data f2.data) s = s := by
        refine reSub_of_inv _ (fun cs => noCloseAlpha cs = true) hstep ?_ s hs
        intro p cs hP
        exact (mnone f1 f2 hf2 p cs hP).2.1
      have h3 : reSub (pCallFuncCall f1.data f2.data) s = s := by
        refine reSub_of_inv _ (fun cs => noCloseAlpha cs = true) hstep ?_ s hs
        intro p cs hP
        exact (mnone f1 f2 hf2 p cs hP).2.2
      rw [List.foldl_cons, h1, h2, h3,
        ih (fun g hg => hl g (List.mem_cons_of_mem f2 hg)) s hs]
  have hall : ∀ f ∈ function_names, headAlpha f = true := by decide
  induction fns with
  | nil => rfl
  | cons f1 fs ih =>
    rw [aimStep4Group, List.foldl_cons, inner f1 function_names hall r h,
      ← aimStep4Group, ih]

/-- The four-group split of step 4 rewrites nothing under `noCloseAlpha`. -/
theorem aimGroups_of_no_close_alpha (r : List Char)
    (h : noCloseAlpha r = true) :
    aimStep4Group ["floor", "ceil", "round", "sign"]
      (aimStep4Group ["sinh", "cosh", "tanh", "log10", "log2"]
        (aimStep4Group ["sqrt", "abs", "asin", "acos", "atan"]
          (aimStep4Group ["sin", "cos", "tan", "log", "exp"] r))) = r := by
  rw [aimStep4Group_of_no_close_alpha ["sin", "cos", "tan", "log", "exp"] r h,
    aimStep4Group_of_no_close_alpha ["sqrt", "abs", "asin", "acos", "atan"] r h,
    aimStep4Group_of_no_close_alpha ["sinh", "cosh", "tanh", "log10", "log2"] r h,
    aimStep4Group_of_no_close_alpha ["floor", "ceil", "round", "sign"] r h]

/-- `add_implicit_multiplication` via stages A and B when the intermediate
string has no `)`-letter adjacency. -/
theorem aim_of_stages (s a b : String) (hA : aimStepA s.data = a.data)
    (hnc : noCloseAlpha a.data = true) (hB : aimStepB a.data = b.data) :
    add_implicit_multiplication s = b := by
  show String.mk (aimChars s.data) = b
  rw [aimChars_stages, hA, aimGroups_of_no_close_alpha a.data hnc, hB]

/-! ## Text normalizer
Embedding of `convert_html_entities` and `convert_latex_to_ascii`
(the `ExpressionParser` versions used by `preprocess_expression`). -/

/-- `html_entity_mapping`, in insertion order. -/
def html_entity_mapping : List (String × String) :=
  [("&sup2;", "^2"), ("&sup3;", "^3"), ("&sdot;", "*"), ("&times;", "*"),
   ("&divide;", "/"), ("&le;", "<="), ("&ge;", ">="), ("&ne;", "!="),
   ("&approx;", "~="), ("&pi;", "pi"), ("&infin;", "inf")]

/-- `ExpressionParser.convert_html_entities` (`str.replace` per entry). -/
def convert_html_entities (expression : String) : String :=
  ⟨html_entity_mapping.foldl (fun r m => replaceAll m.1.data m.2.data r) expression.data⟩

/-- Strip `[^}]+` (greedy): the run of non-`\x7d` characters and the rest;
`none` if the run is empty. -/
def stripNonRBrace1 : List Char → Option (List Char × List Char)
  | [] => none
  | c :: cs =>
    if c = '\x7d' then none
    else
      match stripNonRBrace1 cs with
      | some (run, rest) => some (c :: run, rest)
      | none => some ([c], cs)

/-- Pattern `\\frac\x7b([^\x7d]+)\x7d\x7b([^\x7d]+)\x7d` → `(\1)/(\2)`. -/
def pFrac : Matcher := fun _ cs =>
  match stripLit "\\frac\x7b".data cs with
  | none => none
  | some rest1 =>
    match stripNonRBrace1 rest1 with
    | none => none
    | some (a, rest2) =>
      match stripLit "\x7d\x7b".data rest2 with
      | none => none
      | some rest3 =>
        match stripNonRBrace1 rest3 with
        | none => none
        | some (b, rest4) =>
          match rest4 with
          | '\x7d' :: rest5 =>
            some ('(' :: a ++ ')' :: '/' :: '(' :: b ++ [')'], '\x7d', rest5)
          | _ => none

/-- Pattern `\\sqrt\x7b([^\x7d]+)\x7d` → `sqrt(\1)`. -/
def pSqrtLatex : Matcher := fun _ cs =>
  match stripLit "\\sqrt\x7b".data cs with
  | none => none
  | some rest1 =>
    match stripNonRBrace1 rest1 with
    | none => none
    | some (a, rest2) =>
      match rest2 with
      | '\x7d' :: rest3 => some ("sqrt(".data ++ a ++ [')'], '\x7d', rest3)
      | _ => none

/-- A literal pattern as a `Matcher` (a `re.sub` whose pattern has no
metacharacters is a plain replacement). -/
def pLit (lit rep : List Char) : Matcher := fun _ cs =>
  match lit with
  | [] => none
  | l0 :: _ =>
    match stripLit lit cs with
    | none => none
    | some rest => some (rep, lit.getLastD l0, rest)

/-- The literal entries of `latex_mapping`, after `\frac` and `\sqrt`, in
insertion order. -/
def latex_literal_mapping : List (String × String) :=
  [("\\sin", "sin"), ("\\cos", "cos"), ("\\tan", "tan"), ("\\log", "log"),
   ("\\exp", "exp"), ("\\pi", "pi"), ("\\infty", "inf"), ("^", "**"),
   ("\\cdot", "*"), ("\\times", "*"), ("\\div", "/"), ("\\leq", "<="),
   ("\\geq", ">="), ("\\neq", "!="), ("\\approx", "~=")]

/-- `ExpressionParser.convert_latex_to_ascii`: ordered `re.sub` rewrites of
`latex_mapping` (`\frac`, `\sqrt`, then literal macro patterns). -/
def convert_latex_to_ascii (expression : String) : String :=
  let r := reSub pFrac expression.data
  let r := reSub pSqrtLatex r
  ⟨latex_literal_mapping.foldl (fun r m => reSub (pLit m.1.data m.2.data) r) r⟩

/-- `ExpressionParser.preprocess_expression`: HTML entities, then LaTeX, then
implicit multiplication. -/
def preprocess_expression (expression : String) : String :=
  add_implicit_multiplication (convert_latex_to_ascii (convert_html_entities expression))

/-- When the HTML and LaTeX rewrites leave the string unchanged,
preprocessing is the implicit-multiplication expansion alone. -/
theorem preprocess_of_clean (s : String) (h1 : convert_html_entities s = s)
    (h2 : convert_latex_to_ascii s = s) :
    preprocess_expression s = add_implicit_multiplication s := by
  rw [preprocess_expression, h1, h2]

section AimTest

set_option maxHeartbeats 8000000

/-! Concrete evaluations of `add_implicit_multiplication`, staged as
`aimStepA` / step-4 shortcut / `aimStepB` so the kernel never evaluates the
1140 step-4 scans. -/

theorem aim_sin : add_implicit_multiplication "sin(x)" = "sin(x)" :=
  aim_of_stages "sin(x)" "sin(x)" "sin(x)" (by decide) (by decide) (by decide)

theorem aim_cos : add_implicit_multiplication "cos(x)" = "cos(x)" :=
  aim_of_stages "cos(x)" "cos(x)" "cos(x)" (by decide) (by decide) (by decide)

theorem aim_tan : add_implicit_multiplication "tan(x)" = "tan(x)" :=
  aim_of_stages "tan(x)" "tan(x)" "tan(x)" (by decide) (by decide) (by decide)

theorem aim_log : add_implicit_multiplication "log(x)" = "log(x)" :=
  aim_of_stages "log(x)" "log(x)" "log(x)" (by decide) (by decide) (by decide)

theorem aim_exp : add_implicit_multiplication "exp(x)" = "exp(x)" :=
  aim_of_stages "exp(x)" "exp(x)" "exp(x)" (by decide) (by decide) (by decide)

theorem aim_sqrt : add_implicit_multiplication "sqrt(x)" = "sqrt(x)" :=
  aim_of_stages "sqrt(x)" "sqrt(x)" "sqrt(x)" (by decide) (by decide) (by decide)

theorem aim_abs : add_implicit_multiplication "abs(x)" = "abs(x)" :=
  aim_of_stages "abs(x)" "abs(x)" "abs(x)" (by decide) (by decide) (by decide)

theorem aim_floor : add_implicit_multiplication "floor(x)" = "floor(x)" :=
  aim_of_stages "floor(x)" "floor(x)" "floor(x)" (by decide) (by decide) (by decide)

theorem aim_ceil : add_implicit_multiplication "ceil(x)" = "ceil(x)" :=
  aim_of_stages "ceil(x)" "ceil(x)" "ceil(x)" (by decide) (by decide) (by decide)

theorem aim_round : add_implicit_multiplication "round(x)" = "round(x)" :=
  aim_of_stages "round(x)" "round(x)" "round(x)" (by decide) (by decide) (by decide)

theorem aim_sign : add_implicit_multiplication "sign(x)" = "sign(x)" :=
  aim_of_stages "sign(x)" "sign(x)" "sign(x)" (by decide) (by decide) (by decide)

theorem aim_tanh : add_implicit_multiplication "tanh(x)" = "tan(h)*(x)" :=
  aim_of_stages "tanh(x)" "tan(h)(x)" "tan(h)*(x)" (by decide) (by decide) (by decide)

theorem aim_atan2 : add_implicit_multiplication "atan2" = "atan*2" :=
  aim_of_stages "atan2" "atan2" "atan*2" (by decide) (by decide) (by decide)

theorem aim_atanS2 : add_implicit_multiplication "atan*2" = "a*tan*2" :=
  aim_of_stages "atan*2" "a*tan*2" "a*tan*2" (by decide) (by decide) (by decide)

theorem aim_2x : add_implicit_multiplication "2x" = "2*x" :=
  aim_of_stages "2x" "2x" "2*x" (by decide) (by decide) (by decide)

theorem aim_2Sx : add_implicit_multiplication "2*x" = "2*x" :=
  aim_of_stages "2*x" "2*x" "2*x" (by decide) (by decide) (by decide)

theorem aim_sinx : add_implicit_multiplication "sinx" = "sin(x)" :=
  aim_of_stages "sinx" "sin(x)" "sin(x)" (by decide) (by decide) (by decide)

theorem aim_xeq5 : add_implicit_multiplication "x = 5" = "x = 5" :=
  aim_of_stages "x = 5" "x = 5" "x = 5" (by decide) (by decide) (by decide)

theorem aim_yeqm6 : add_implicit_multiplication "y = -6" = "y = -6" :=
  aim_of_stages "y = -6" "y = -6" "y = -6" (by decide) (by decide) (by decide)

theorem aim_xty : add_implicit_multiplication "x*y" = "x*y" :=
  aim_of_stages "x*y" "x*y" "x*y" (by decide) (by decide) (by decide)

theorem circFull : preprocess_expression "x^2 + y^2 = 4" = "x**2 + y**2 = 4" := by
  show add_implicit_multiplication
    (convert_latex_to_ascii (convert_html_entities "x^2 + y^2 = 4")) = _
  have h1 : convert_html_entities "x^2 + y^2 = 4" = "x^2 + y^2 = 4" := by decide
  have h2 : convert_latex_to_ascii "x^2 + y^2 = 4" = "x**2 + y**2 = 4" := by decide
  rw [h1, h2]
  exact aim_of_stages "x**2 + y**2 = 4" "x**2 + y**2 = 4" "x**2 + y**2 = 4"
    (by decide) (by decide) (by decide)

theorem pre_xeq5 : preprocess_expression "x = 5" = "x = 5" := by
  rw [preprocess_of_clean "x = 5" (by decide) (by decide), aim_xeq5]

theorem pre_yeqm6 : preprocess_expression "y = -6" = "y = -6" := by
  rw [preprocess_of_clean "y = -6" (by decide) (by decide), aim_yeqm6]

theorem pre_2x : preprocess_expression "2x" = "2*x" := by
  rw [preprocess_of_clean "2x" (by decide) (by decide), aim_2x]

theorem pre_xty : preprocess_expression "x*y" = "x*y" := by
  rw [preprocess_of_clean "x*y" (by decide) (by decide), aim_xty]

end AimTest

/-! ## Model of `ast.parse(expression, mode='eval')`
A tokenizer and recursive-descent parser for the Python expression subset the
engine accepts: numbers, names, `+ - * / // % ** ^ | &`, unary `+ - ~`,
parenthesization, and calls.  Comparisons, strings, lambdas, containers and
other Python forms are outside the subset and are reported as syntax errors
(the source's Validator rejects every such node category or never receives
it, so the modelled accept/reject behaviour agrees on the engine's domain).
Every recursion is fuel-based or structural so the kernel can evaluate it. -/

/-- Executable rationals standing for IEEE doubles: normalized `num/den`
with `den > 0` and `gcd |num| den = 1`, maintained by the smart constructors.
There are no proof fields, so the kernel evaluates all arithmetic (Mathlib's
`ℚ` operations are `@[irreducible]` and do not reduce).  Every value the
engine builds goes through `Flt.norm`. -/
structure Flt where
  num : Int
  den : Nat
  deriving DecidableEq, Repr

/-- Normalized rational from a numerator and positive denominator. -/
def Flt.norm (n : Int) (d : Nat) : Flt :=
  if d = 0 then ⟨0, 1⟩
  else
    let g : Nat := Nat.gcd n.natAbs d
    ⟨n / (g : Int), d / g⟩

/-- Normalized rational from an integer numerator and denominator. -/
def Flt.divInt (n d : Int) : Flt :=
  if d < 0 then Flt.norm (-n) (-d).toNat else Flt.norm n d.toNat

instance : OfNat Flt n := ⟨⟨(n : Int), 1⟩⟩

instance : Neg Flt := ⟨fun q => ⟨-q.num, q.den⟩⟩

instance : Add Flt :=
  ⟨fun a b => Flt.norm (a.num * b.den + b.num * a.den) (a.den * b.den)⟩

instance : Sub Flt :=
  ⟨fun a b => Flt.norm (a.num * b.den - b.num * a.den) (a.den * b.den)⟩

instance : Mul Flt := ⟨fun a b => Flt.norm (a.num * b.num) (a.den * b.den)⟩

/-- Division (callers test for a zero divisor first). -/
instance : Div Flt := ⟨fun a b => Flt.divInt (a.num * b.den) ((a.den : Int) * b.num)⟩

instance : LT Flt := ⟨fun a b => a.num * b.den < b.num * a.den⟩

instance : LE Flt := ⟨fun a b => a.num * b.den ≤ b.num * a.den⟩

instance (a b : Flt) : Decidable (a < b) :=
  inferInstanceAs (Decidable (a.num * b.den < b.num * a.den))

instance (a b : Flt) : Decidable (a ≤ b) :=
  inferInstanceAs (Decidable (a.num * b.den ≤ b.num * a.den))

/-- `⌊q⌋` (the denominator is positive, so flooring division is `Int.fdiv`). -/
def Flt.floor (q : Flt) : Int := Int.fdiv q.num q.den

def Flt.ceil (q : Flt) : Int := -(Flt.floor (-q))

def Flt.ofInt (n : Int) : Flt := ⟨n, 1⟩

def Flt.abs (q : Flt) : Flt := ⟨(q.num.natAbs : Int), q.den⟩

def Flt.npow (q : Flt) : Nat → Flt
  | 0 => 1
  | n + 1 => q * Flt.npow q n

/-- `q ^ z` for integer `z` (callers exclude `0 ^ -n`). -/
def Flt.zpow (q : Flt) : Int → Flt
  | Int.ofNat n => Flt.npow q n
  | Int.negSucc n => (1 : Flt) / Flt.npow q (n + 1)

/-- The exact rational of a `Flt` (for the real-valued theorems). -/
def Flt.toRat (q : Flt) : ℚ := (q.num : ℚ) / (q.den : ℚ)

inductive Tok where
  | num (q : Flt)
  | name (s : String)
  | op (s : String)
  deriving DecidableEq, Repr

def digitsToNat (ds : List Char) : Nat :=
  ds.foldl (fun n c => 10 * n + (c.toNat - 48)) 0

/-- The rational value of integer and fractional digit runs. -/
def decimalValue (ds fs : List Char) : Flt :=
  Flt.norm ((digitsToNat ds : Int) * ((10 : Int) ^ fs.length) + (digitsToNat fs : Int))
    ((10 : Nat) ^ fs.length)

/-- Lex one number token: `\d+(\.\d*)?` or `\.\d+`; Python rejects a number
followed directly by a name character (e.g. `2x`). -/
def lexNumber (cs : List Char) : Except String (Flt × List Char) :=
  match stripDigits1 cs with
  | some (ds, rest) =>
    match rest with
    | '.' :: rest2 =>
      match stripDigits1 rest2 with
      | some (fs, rest3) =>
        match rest3 with
        | c :: _ =>
          if isWordCh c then Except.error "invalid decimal literal"
          else Except.ok (decimalValue ds fs, rest3)
        | [] => Except.ok (decimalValue ds fs, rest3)
      | none =>
        match rest2 with
        | c :: _ =>
          if isWordCh c || c = '.' then Except.error "invalid decimal literal"
          else Except.ok (decimalValue ds [], rest2)
        | [] => Except.ok (decimalValue ds [], rest2)
    | c :: _ =>
      if isWordCh c then Except.error "invalid decimal literal"
      else Except.ok (decimalValue ds [], rest)
    | [] => Except.ok (decimalValue ds [], rest)
  | none =>
    match cs with
    | '.' :: rest =>
      match stripDigits1 rest with
      | some (fs, rest2) => Except.ok (decimalValue [] fs, rest2)
      | none => Except.error "invalid syntax"
    | _ => Except.error "invalid number"

/-- Lex one name token: `[A-Za-z_][A-Za-z0-9_]*`. -/
def lexName (cs : List Char) : String × List Char :=
  match cs with
  | [] => ("", [])
  | c :: rest =>
    let go : List Char → List Char × List Char := fun l =>
      let run := l.takeWhile isWordCh
      (run, l.drop run.length)
    let (run, rest2) := go rest
    (⟨c :: run⟩, rest2)

def tokenizeGo : Nat → List Char → Except String (List Tok)
  | _, [] => Except.ok []
  | 0, _ => Except.error "tokenizer fuel exhausted"
  | fuel + 1, c :: cs =>
    if isSpaceCh c then tokenizeGo fuel cs
    else if isDigitCh c || (c = '.' && (match cs with | d :: _ => isDigitCh d | [] => false)) then
      match lexNumber (c :: cs) with
      | Except.error e => Except.error e
      | Except.ok (q, rest) => (tokenizeGo fuel rest).map (Tok.num q :: ·)
    else if isAlphaCh c || c = '_' then
      match lexName (c :: cs) with
      | (s, rest) => (tokenizeGo fuel rest).map (Tok.name s :: ·)
    else if c = '*' then
      match cs with
      | '*' :: rest => (tokenizeGo fuel rest).map (Tok.op "**" :: ·)
      | _ => (tokenizeGo fuel cs).map (Tok.op "*" :: ·)
    else if c = '/' then
      match cs with
      | '/' :: rest => (tokenizeGo fuel rest).map (Tok.op "//" :: ·)
      | _ => (tokenizeGo fuel cs).map (Tok.op "/" :: ·)
    else if c = '+' || c = '-' || c = '%' || c = '^' || c = '(' || c = ')' ||
        c = ',' || c = '|' || c = '&' || c = '~' then
      (tokenizeGo fuel cs).map (Tok.op ⟨[c]⟩ :: ·)
    else Except.error "invalid syntax"

def tokenize (s : String) : Except String (List Tok) :=
  tokenizeGo s.data.length s.data

/-- Grammar-node kinds of the accepted subset (`ast.BinOp` operators). -/
inductive PyOp where
  | add | sub | mult | div | floordiv | mod | pow | bitxor | bitor | bitand
  deriving DecidableEq, Repr

/-- `ast.UnaryOp` operators. -/
inductive PyUop where
  | uadd | usub | invert
  deriving DecidableEq, Repr

mutual
inductive PyExpr where
  | num (q : Flt)
  | name (s : String)
  | binop (op : PyOp) (l r : PyExpr)
  | unary (op : PyUop) (e : PyExpr)
  | call (f : PyExpr) (args : PyArgs)

inductive PyArgs where
  | nil
  | cons (a : PyExpr) (rest : PyArgs)
end

mutual

/-- Parse at a precedence level; returns the node and remaining tokens. -/
def parseLvl : Nat → Nat → List Tok → Except String (PyExpr × List Tok)
  | 0, _, _ => Except.error "parser fuel exhausted"
  | fuel + 1, lvl, toks =>
    if lvl = 0 then
      -- bitor
      match parseLvl fuel 1 toks with
      | Except.error e => Except.error e
      | Except.ok (l, rest) => parseChain fuel 1 PyOp.bitor "|" l rest
    else if lvl = 1 then
      match parseLvl fuel 2 toks with
      | Except.error e => Except.error e
      | Except.ok (l, rest) => parseChain fuel 2 PyOp.bitxor "^" l rest
    else if lvl = 2 then
      match parseLvl fuel 3 toks with
      | Except.error e => Except.error e
      | Except.ok (l, rest) => parseChain fuel 3 PyOp.bitand "&" l rest
    else if lvl = 3 then
      match parseLvl fuel 4 toks with
      | Except.error e => Except.error e
      | Except.ok (l, rest) => parseAddChain fuel l rest
    else if lvl = 4 then
      match parseLvl fuel 5 toks with
      | Except.error e => Except.error e
      | Except.ok (l, rest) => parseMulChain fuel l rest
    else if lvl = 5 then
      -- unary
      match toks with
      | Tok.op "+" :: rest =>
        (parseLvl fuel 5 rest).map (fun p => (PyExpr.unary PyUop.uadd p.1, p.2))
      | Tok.op "-" :: rest =>
        (parseLvl fuel 5 rest).map (fun p => (PyExpr.unary PyUop.usub p.1, p.2))
      | Tok.op "~" :: rest =>
        (parseLvl fuel 5 rest).map (fun p => (PyExpr.unary PyUop.invert p.1, p.2))
      | _ => parseLvl fuel 6 toks
    else if lvl = 6 then
      -- power: primary ['**' unary]
      match parseLvl fuel 7 toks with
      | Except.error e => Except.error e
      | Except.ok (b, rest) =>
        match rest with
        | Tok.op "**" :: rest2 =>
          (parseLvl fuel 5 rest2).map (fun p => (PyExpr.binop PyOp.pow b p.1, p.2))
        | _ => Except.ok (b, rest)
    else
      -- primary with call trailers
      match toks with
      | Tok.num q :: rest => parseTrailers fuel (PyExpr.num q) rest
      | Tok.name s :: rest => parseTrailers fuel (PyExpr.name s) rest
      | Tok.op "(" :: rest =>
        match parseLvl fuel 0 rest with
        | Except.error e => Except.error e
        | Except.ok (e, rest2) =>
          match rest2 with
          | Tok.op ")" :: rest3 => parseTrailers fuel e rest3
          | _ => Except.error "expected )"
      | _ => Except.error "invalid syntax"

/-- Left-associative chain of one operator token. -/
def parseChain : Nat → Nat → PyOp → String → PyExpr → List Tok →
    Except String (PyExpr × List Tok)
  | 0, _, _, _, _, _ => Except.error "parser fuel exhausted"
  | fuel + 1, sub, opk, sym, l, toks =>
    match toks with
    | Tok.op s :: rest =>
      if s = sym then
        match parseLvl fuel sub rest with
        | Except.error e => Except.error e
        | Except.ok (r, rest2) => parseChain fuel sub opk sym (PyExpr.binop opk l r) rest2
      else Except.ok (l, toks)
    | _ => Except.ok (l, toks)

/-- Left-associative `+`/`-` chain. -/
def parseAddChain : Nat → PyExpr → List Tok → Except String (PyExpr × List Tok)
  | 0, _, _ => Except.error "parser fuel exhausted"
  | fuel + 1, l, toks =>
    match toks with
    | Tok.op "+" :: rest =>
      match parseLvl fuel 4 rest with
      | Except.error e => Except.error e
      | Except.ok (r, rest2) => parseAddChain fuel (PyExpr.binop PyOp.add l r) rest2
    | Tok.op "-" :: rest =>
      match parseLvl fuel 4 rest with
      | Except.error e => Except.error e
      | Except.ok (r, rest2) => parseAddChain fuel (PyExpr.binop PyOp.sub l r) rest2
    | _ => Except.ok (l, toks)

/-- Left-associative `*`/`/`/`//`/`%` chain. -/
def parseMulChain : Nat → PyExpr → List Tok → Except String (PyExpr × List Tok)
  | 0, _, _ => Except.error "parser fuel exhausted"
  | fuel + 1, l, toks =>
    match toks with
    | Tok.op "*" :: rest =>
      match parseLvl fuel 5 rest with
      | Except.error e => Except.error e
      | Except.ok (r, rest2) => parseMulChain fuel (PyExpr.binop PyOp.mult l r) rest2
    | Tok.op "/" :: rest =>
      match parseLvl fuel 5 rest with
      | Except.error e => Except.error e
      | Except.ok (r, rest2) => parseMulChain fuel (PyExpr.binop PyOp.div l r) rest2
    | Tok.op "//" :: rest =>
      match parseLvl fuel 5 rest with
      | Except.error e => Except.error e
      | Except.ok (r, rest2) => parseMulChain fuel (PyExpr.binop PyOp.floordiv l r) rest2
    | Tok.op "%" :: rest =>
      match parseLvl fuel 5 rest with
      | Except.error e => Except.error e
      | Except.ok (r, rest2) => parseMulChain fuel (PyExpr.binop PyOp.mod l r) rest2
    | _ => Except.ok (l, toks)

/-- Call trailers: `f(...)()...`. -/
def parseTrailers : Nat → PyExpr → List Tok → Except String (PyExpr × List Tok)
  | 0, _, _ => Except.error "parser fuel exhausted"
  | fuel + 1, e, toks =>
    match toks with
    | Tok.op "(" :: rest =>
      match rest with
      | Tok.op ")" :: rest2 => parseTrailers fuel (PyExpr.call e PyArgs.nil) rest2
      | _ =>
        match parseArgs fuel rest with
        | Except.error er => Except.error er
        | Except.ok (args, rest2) =>
          match rest2 with
          | Tok.op ")" :: rest3 => parseTrailers fuel (PyExpr.call e args) rest3
          | _ => Except.error "expected )"
    | _ => Except.ok (e, toks)

/-- Comma-separated argument list (at least one argument). -/
def parseArgs : Nat → List Tok → Except String (PyArgs × List Tok)
  | 0, _ => Except.error "parser fuel exhausted"
  | fuel + 1, toks =>
    match parseLvl fuel 0 toks with
    | Except.error e => Except.error e
    | Except.ok (a, rest) =>
      match rest with
      | Tok.op "," :: rest2 =>
        match parseArgs fuel rest2 with
        | Except.error e => Except.error e
        | Except.ok (args, rest3) => Except.ok (PyArgs.cons a args, rest3)
      | _ => Except.ok (PyArgs.cons a PyArgs.nil, rest)

end

/-- `ast.parse(s, mode='eval')` on the accepted subset. -/
def pyParse (s : String) : Except String PyExpr :=
  match tokenize s with
  | Except.error e => Except.error e
  | Except.ok toks =>
    match parseLvl (10 * (toks.length + 1)) 0 toks with
    | Except.error e => Except.error e
    | Except.ok (e, rest) =>
      match rest with
      | [] => Except.ok e
      | _ => Except.error "invalid syntax"

section ParseTest

example : pyParse "2x" = Except.error "invalid decimal literal" := rfl
example : pyParse "2*x" =
    Except.ok (PyExpr.binop PyOp.mult (PyExpr.num 2) (PyExpr.name "x")) := rfl
example : pyParse "x^2" =
    Except.ok (PyExpr.binop PyOp.bitxor (PyExpr.name "x") (PyExpr.num 2)) := rfl
example : pyParse "x**2" =
    Except.ok (PyExpr.binop PyOp.pow (PyExpr.name "x") (PyExpr.num 2)) := rfl
example : pyParse "sin(x)" =
    Except.ok (PyExpr.call (PyExpr.name "sin") (PyArgs.cons (PyExpr.name "x") PyArgs.nil)) := rfl
example : pyParse "1/x" =
    Except.ok (PyExpr.binop PyOp.div (PyExpr.num 1) (PyExpr.name "x")) := rfl
example : pyParse "a*x^2 + b" =
    Except.ok (PyExpr.binop PyOp.bitxor
      (PyExpr.binop PyOp.mult (PyExpr.name "a") (PyExpr.name "x"))
      (PyExpr.binop PyOp.add (PyExpr.num 2) (PyExpr.name "b"))) := rfl

end ParseTest

/-! ## Variable extraction, expression-type detection, validation -/

/-- `MATH_CONSTANTS`' keys. -/
def math_constants : List String := ["pi", "e", "tau"]

mutual

/-- All `ast.Name` identifiers of an expression, in syntactic order
(`ast.walk` collects the same set). -/
def collectNames : PyExpr → List String
  | PyExpr.num _ => []
  | PyExpr.name s => [s]
  | PyExpr.binop _ l r => collectNames l ++ collectNames r
  | PyExpr.unary _ e => collectNames e
  | PyExpr.call f args => collectNames f ++ collectNamesArgs args

def collectNamesArgs : PyArgs → List String
  | PyArgs.nil => []
  | PyArgs.cons a rest => collectNames a ++ collectNamesArgs rest

end

/-- `ExpressionParser.extract_variables`: the `Name` identifiers that are not
mathematical functions or constants (a set in Python; here a deduplicated
list, since only membership is ever used). -/
def extract_variables (expression : String) : Except String (List String) :=
  match pyParse expression with
  | Except.error e => Except.error ("Failed to parse expression: " ++ e)
  | Except.ok t =>
    Except.ok (((collectNames t).filter
      (fun s => !(function_names.contains s) && !(math_constants.contains s))).eraseDups)

/-- Does the literal occur anywhere in the input? -/
def containsLit (lit : List Char) : List Char → Bool
  | [] => (stripLit lit []).isSome
  | c :: cs => (stripLit lit (c :: cs)).isSome || containsLit lit cs

/-- `re.search(r'[xy]\s*\(', s)` as a Boolean. -/
def searchXYParen : List Char → Bool
  | [] => false
  | c :: cs =>
    ((c = 'x' || c = 'y') &&
      (match stripSpaces cs with
       | '(' :: _ => true
       | _ => false)) || searchXYParen cs

/-- `ExpressionParser.parse_expression_type`. -/
def parse_expression_type (expression : String) : String :=
  let cs := expression.data
  if cs.contains '=' &&
      !(containsLit "<".data cs || containsLit ">".data cs || containsLit "<=".data cs ||
        containsLit ">=".data cs || containsLit "!=".data cs) then
    "implicit"
  else if searchXYParen cs then "parametric"
  else "explicit"

/-- One scan position of `re.search(r'__.*__')`: a later `__` on the same
line (`.` does not cross a newline). -/
def dunderFrom : List Char → Bool
  | [] => false
  | c :: cs =>
    if c = '\n' then false
    else (stripLit "__".data (c :: cs)).isSome || dunderFrom cs

/-- `re.search(r'__.*__', s)`. -/
def searchDunder : List Char → Bool
  | [] => false
  | c :: cs =>
    (match stripLit "__".data (c :: cs) with
     | some rest => dunderFrom rest
     | none => false) || searchDunder cs

/-- Try a head predicate at every position (`re.search` of a fixed shape). -/
def anyPos (p : List Char → Bool) : List Char → Bool
  | [] => p []
  | c :: cs => p (c :: cs) || anyPos p cs

/-- Head match for `LIT\s+`. -/
def headLitSpace1 (lit : List Char) (cs : List Char) : Bool :=
  match stripLit lit cs with
  | some r =>
    match r with
    | c :: _ => isSpaceCh c
    | [] => false
  | none => false

/-- Head match for `LIT\s*\(`. -/
def headLitParen (lit : List Char) (cs : List Char) : Bool :=
  match stripLit lit cs with
  | some r =>
    match stripSpaces r with
    | '(' :: _ => true
    | _ => false
  | none => false

/-- Head match for a literal. -/
def headLit (lit : List Char) (cs : List Char) : Bool :=
  (stripLit lit cs).isSome

/-- The `unsupported_patterns` list of `validate_expression`: the pattern text
(used in the error message, exactly as in the source) paired with its search,
applied to the lowercased input (`re.IGNORECASE`). -/
def unsupported_patterns : List (String × (List Char → Bool)) :=
  [("__.*__", searchDunder),
   ("import\\s+", anyPos (headLitSpace1 "import".data)),
   ("exec\\s*\\(", anyPos (headLitParen "exec".data)),
   ("eval\\s*\\(", anyPos (headLitParen "eval".data)),
   ("open\\s*\\(", anyPos (headLitParen "open".data)),
   ("file\\s*\\(", anyPos (headLitParen "file".data)),
   ("input\\s*\\(", anyPos (headLitParen "input".data)),
   ("globals\\s*\\(", anyPos (headLitParen "globals".data)),
   ("locals\\s*\\(", anyPos (headLitParen "locals".data)),
   ("vars\\s*\\(", anyPos (headLitParen "vars".data)),
   ("dir\\s*\\(", anyPos (headLitParen "dir".data)),
   ("\\+\\+", anyPos (headLit "++".data)),
   ("--", anyPos (headLit "--".data))]

/-- First denylisted pattern matching the (lowercased) expression. -/
def findUnsupported (lower : List Char) : Option String :=
  (unsupported_patterns.find? (fun p => p.2 lower)).map (·.1)

/-- Split at the first `=` (Python `split('=', 1)`); the input is known to
contain `=`. -/
def splitFirstEq : List Char → List Char × List Char
  | [] => ([], [])
  | c :: cs =>
    if c = '=' then ([], cs)
    else
      match splitFirstEq cs with
      | (l, r) => (c :: l, r)

/-- Python `str.strip()`. -/
def pyStrip (cs : List Char) : List Char :=
  ((cs.dropWhile isSpaceCh).reverse.dropWhile isSpaceCh).reverse

/-- `ExpressionParser.validate_expression`.  In the modelled grammar every
node the parser can produce lies in the source's `allowed_nodes` set
(`Expression`, `BinOp`, `UnaryOp`, `Constant`, `Name`, `Load`, `Call` and the
operator kinds), so the node walk of the source accepts whenever parsing
succeeds. -/
def validate_expression (expression : String) : Bool × Option String :=
  let expr_type := parse_expression_type expression
  if expr_type ≠ "implicit" && expression.data.contains '=' then
    (false, some "Assignment operator (=) not supported in this context. For implicit equations, use format like 'x^2 + y^2 = 1'")
  else
    match findUnsupported (expression.data.map Char.toLower) with
    | some pat => (false, some ("Unsupported expression construct: " ++ pat))
    | none =>
      if expr_type = "implicit" then
        if !expression.data.contains '=' then
          (false, some "Implicit equation must contain '=' sign")
        else
          match splitFirstEq expression.data with
          | (l, r) =>
            match pyParse ⟨pyStrip l⟩ with
            | Except.error e => (false, some ("Syntax error in implicit equation: " ++ e))
            | Except.ok _ =>
              match pyParse ⟨pyStrip r⟩ with
              | Except.error e => (false, some ("Syntax error in implicit equation: " ++ e))
              | Except.ok _ => (true, none)
      else
        match pyParse expression with
        | Except.error e => (false, some ("Syntax error: " ++ e))
        | Except.ok _ => (true, none)

section ValidateTest

example : validate_expression "__import__('os')" =
    (false, some "Unsupported expression construct: __.*__") := rfl
example : validate_expression "2x" =
    (false, some "Syntax error: invalid decimal literal") := rfl
example : validate_expression "2*x" = (true, none) := rfl
example : validate_expression "x^2" = (true, none) := rfl
example : validate_expression "a*x" = (true, none) := rfl
example : validate_expression "5" = (true, none) := rfl
example : validate_expression "y = x^2" =
    (true, none) := rfl
example : parse_expression_type "y = x^2" = "implicit" := rfl
example : parse_expression_type "2x" = "explicit" := rfl

end ValidateTest

/-! ## The classifier -/

/-- The dictionary returned by `parse_and_classify_expression`. -/
structure Classification where
  original_expression : String
  processed_expression : String
  type_ : String
  vars : List String  -- the 'variables' entry ('variables' is reserved in Lean)
  is_valid : Bool
  error : Option String
  primary_variable : Option String
  parameters : List String
  equation_left : Option String := none
  equation_right : Option String := none

/-- `re.findall(r'\b[a-zA-Z]\b', s)`: isolated single letters (the fallback
variable extraction of the implicit branch). -/
def findallSingles : Option Char → List Char → List String
  | _, [] => []
  | prev, c :: cs =>
    if isAlphaCh c && prevNotWord prev && nextNotWord cs then
      (⟨[c]⟩ : String) :: findallSingles (some c) cs
    else findallSingles (some c) cs

/-- `ExpressionEvaluator.parse_and_classify_expression`. -/
def parse_and_classify_expression (expression : String) : Classification :=
  let processed := preprocess_expression expression
  let expr_type := parse_expression_type processed
  if expr_type = "implicit" then
    -- `'=' in processed` holds whenever the type is implicit, and
    -- `split('=', 1)` then always yields exactly two parts.
    match splitFirstEq processed.data with
    | (l, r) =>
      let left : String := ⟨pyStrip l⟩
      let right : String := ⟨pyStrip r⟩
      let singles := (findallSingles none processed.data).eraseDups
      let all_variables : List String :=
        match extract_variables left with
        | Except.ok vl =>
          match extract_variables right with
          | Except.ok vr => (vl ++ vr).eraseDups
          | Except.error _ => (vl ++ singles).eraseDups
        | Except.error _ => singles
      { original_expression := expression
        processed_expression := processed
        type_ := "implicit"
        vars := all_variables
        is_valid := true
        error := none
        primary_variable := if all_variables.contains "x" then some "x" else none
        parameters := all_variables.filter (fun v => !(["x", "y", "t"].contains v))
        equation_left := some left
        equation_right := some right }
  else
    match extract_variables processed with
    | Except.error e =>
      -- the raised `ValueError` reaches the enclosing `except` handler
      { original_expression := expression
        processed_expression := expression
        type_ := "error"
        vars := []
        is_valid := false
        error := some ("Parse error: " ++ e)
        primary_variable := none
        parameters := [] }
    | Except.ok varNames =>
      match validate_expression processed with
      | (is_valid, error_msg) =>
        { original_expression := expression
          processed_expression := processed
          type_ := expr_type
          vars := varNames
          is_valid := is_valid
          error := error_msg
          primary_variable := if varNames.contains "x" then some "x" else none
          parameters := varNames.filter (fun v => !(["x", "y", "t"].contains v)) }

/-! ## The numeric evaluator
Values are idealized floats: `none` is the non-finite marker (NaN/±inf,
collapsed — the final `np.where(isfinite, ..., nan)` of the source erases the
difference), `some q` a finite value, exact rationals standing for doubles.
The handful of irrational-valued functions (`sin`, `exp`, `sqrt`, ..., and
`a ** b` for non-integer `b`) cannot take their true values in `ℚ`; the
evaluator is therefore parametrized by a `TranscModel` supplying stand-in
values, while their domains (where NaN arises) are modelled exactly.  No
claim depends on a stand-in value. -/

abbrev PFloat : Type := Option Flt

/-- Stand-in values for the irrational-valued operations. -/
structure TranscModel where
  app1 : String → Flt → Flt
  rpow : Flt → Flt → Flt

/-- The all-zero stand-in (used where values are irrelevant). -/
def transcZero : TranscModel := ⟨fun _ _ => 0, fun _ _ => 0⟩

def pfAdd : PFloat → PFloat → PFloat
  | some a, some b => some (a + b)
  | _, _ => none

def pfSub : PFloat → PFloat → PFloat
  | some a, some b => some (a - b)
  | _, _ => none

def pfMul : PFloat → PFloat → PFloat
  | some a, some b => some (a * b)
  | _, _ => none

/-- Division; `x/0` is `±inf`/NaN for floats, hence the invalid marker. -/
def pfDiv : PFloat → PFloat → PFloat
  | some a, some b => if b = 0 then none else some (a / b)
  | _, _ => none

/-- `np.floor_divide`. -/
def pfFloorDiv : PFloat → PFloat → PFloat
  | some a, some b => if b = 0 then none else some (Flt.ofInt (Flt.floor (a / b)))
  | _, _ => none

/-- `np.mod`: `a - b * floor(a / b)`, NaN at `b = 0`. -/
def pfMod : PFloat → PFloat → PFloat
  | some a, some b => if b = 0 then none else some (a - b * Flt.ofInt (Flt.floor (a / b)))
  | _, _ => none

/-- Power.  Integral exponents are exact (`0 ** 0 = 1`, `0 ** -n` infinite);
a non-integral exponent gives NaN on a negative base and a stand-in positive
value otherwise. -/
def pfPow (tm : TranscModel) : PFloat → PFloat → PFloat
  | some a, some b =>
    if b.den = 1 then
      if a = 0 && b.num < 0 then none else some (Flt.zpow a b.num)
    else if a > 0 then some (tm.rpow a b)
    else if a = 0 then (if b > 0 then some 0 else none)
    else none
  | _, _ => none

def pfNeg : PFloat → PFloat
  | some a => some (-a)
  | none => none

def pfOp (tm : TranscModel) : PyOp → PFloat → PFloat → PFloat
  | PyOp.add => pfAdd
  | PyOp.sub => pfSub
  | PyOp.mult => pfMul
  | PyOp.div => pfDiv
  | PyOp.floordiv => pfFloorDiv
  | PyOp.mod => pfMod
  | PyOp.pow => pfPow tm
  | PyOp.bitxor => pfPow tm  -- `OPERATORS` maps `ast.BitXor` to `operator.pow`
  | PyOp.bitor => fun _ _ => none
  | PyOp.bitand => fun _ _ => none

/-- A total (finite-to-finite) NumPy function. -/
def pfTotal (f : Flt → Flt) : PFloat → PFloat
  | some q => some (f q)
  | none => none

/-- A NumPy function yielding NaN outside its domain. -/
def pfDomain (d : Flt → Bool) (f : Flt → Flt) : PFloat → PFloat
  | some q => if d q then some (f q) else none
  | none => none

/-- `np.round`: round half to even, exactly. -/
def ratRoundHalfEven (q : Flt) : Flt :=
  let f : Int := Flt.floor q
  let r : Flt := q - Flt.ofInt f
  let half : Flt := ⟨1, 2⟩
  if r < half then Flt.ofInt f
  else if half < r then Flt.ofInt f + 1
  else if f % 2 = 0 then Flt.ofInt f else Flt.ofInt f + 1

def ratSign (q : Flt) : Flt :=
  if q < 0 then -1 else if q = 0 then 0 else 1

/-- Evaluation-context entries: NumPy scalars, arrays, or functions. -/
inductive CtxVal where
  | scalar (v : PFloat)
  | vector (vs : List PFloat)
  | func (f : PFloat → PFloat)

abbrev Ctx : Type := List (String × CtxVal)

/-- `MATH_FUNCTIONS`, in source order; domains are exact, irrational values
come from the `TranscModel`. -/
def math_functions (tm : TranscModel) : Ctx :=
  [("sin", CtxVal.func (pfTotal (tm.app1 "sin"))),
   ("cos", CtxVal.func (pfTotal (tm.app1 "cos"))),
   ("tan", CtxVal.func (pfTotal (tm.app1 "tan"))),
   ("asin", CtxVal.func (pfDomain (fun q => -1 ≤ q && q ≤ 1) (tm.app1 "asin"))),
   ("acos", CtxVal.func (pfDomain (fun q => -1 ≤ q && q ≤ 1) (tm.app1 "acos"))),
   ("atan", CtxVal.func (pfTotal (tm.app1 "atan"))),
   ("sinh", CtxVal.func (pfTotal (tm.app1 "sinh"))),
   ("cosh", CtxVal.func (pfTotal (tm.app1 "cosh"))),
   ("tanh", CtxVal.func (pfTotal (tm.app1 "tanh"))),
   ("exp", CtxVal.func (pfTotal (tm.app1 "exp"))),
   ("log", CtxVal.func (pfDomain (fun q => 0 < q) (tm.app1 "log"))),
   ("log10", CtxVal.func (pfDomain (fun q => 0 < q) (tm.app1 "log10"))),
   ("log2", CtxVal.func (pfDomain (fun q => 0 < q) (tm.app1 "log2"))),
   ("sqrt", CtxVal.func (pfDomain (fun q => 0 ≤ q) (tm.app1 "sqrt"))),
   ("abs", CtxVal.func (pfTotal Flt.abs)),
   ("floor", CtxVal.func (pfTotal (fun q => Flt.ofInt (Flt.floor q)))),
   ("ceil", CtxVal.func (pfTotal (fun q => Flt.ofInt (Flt.ceil q)))),
   ("round", CtxVal.func (pfTotal ratRoundHalfEven)),
   ("sign", CtxVal.func (pfTotal ratSign))]

/-- `np.pi` as the exact rational value of the IEEE double. -/
def np_pi : Flt := ⟨884279719003555, 281474976710656⟩

/-- `np.e` as the exact rational value of the IEEE double. -/
def np_e : Flt := ⟨6121026514868073, 2251799813685248⟩

/-- `MATH_CONSTANTS` (`tau = 2 * np.pi` is exact in doubles). -/
def math_constants_ctx : Ctx :=
  [("pi", CtxVal.scalar (some np_pi)),
   ("e", CtxVal.scalar (some np_e)),
   ("tau", CtxVal.scalar (some ⟨884279719003555, 140737488355328⟩))]

/-- A NumPy evaluation result: a 0-d (scalar) or 1-d array. -/
inductive Value where
  | scalar (v : PFloat)
  | vector (vs : List PFloat)
  deriving DecidableEq, Repr

/-- Vectorized binary application with scalar/array broadcasting. -/
def applyBin (f : PFloat → PFloat → PFloat) : Value → Value → Except String Value
  | Value.scalar a, Value.scalar b => Except.ok (Value.scalar (f a b))
  | Value.scalar a, Value.vector bs => Except.ok (Value.vector (bs.map (f a)))
  | Value.vector as, Value.scalar b => Except.ok (Value.vector (as.map (f · b)))
  | Value.vector as, Value.vector bs =>
    if as.length = bs.length then Except.ok (Value.vector (List.zipWith f as bs))
    else Except.error "operands could not be broadcast together"

def applyUn (f : PFloat → PFloat) : Value → Value
  | Value.scalar a => Value.scalar (f a)
  | Value.vector as => Value.vector (as.map f)

mutual

/-- `ne.evaluate(compiled, local_dict=context)`: vectorized evaluation of the
compiled expression, names resolved in the context; structural misuse
(an unknown name, a function in value position, a call of a non-function, a
wrong arity) raises, pointwise numerics never do. -/
def neEvaluate (tm : TranscModel) (ctx : Ctx) : PyExpr → Except String Value
  | PyExpr.num q => Except.ok (Value.scalar (some q))
  | PyExpr.name s =>
    match ctx.lookup s with
    | some (CtxVal.scalar v) => Except.ok (Value.scalar v)
    | some (CtxVal.vector vs) => Except.ok (Value.vector vs)
    | some (CtxVal.func _) => Except.error ("function used as a value: " ++ s)
    | none => Except.error ("undefined name: " ++ s)
  | PyExpr.binop op l r =>
    match neEvaluate tm ctx l with
    | Except.error e => Except.error e
    | Except.ok vl =>
      match neEvaluate tm ctx r with
      | Except.error e => Except.error e
      | Except.ok vr => applyBin (pfOp tm op) vl vr
  | PyExpr.unary op e =>
    match neEvaluate tm ctx e with
    | Except.error er => Except.error er
    | Except.ok v =>
      match op with
      | PyUop.usub => Except.ok (applyUn pfNeg v)
      | PyUop.uadd => Except.ok v
      | PyUop.invert => Except.error "unary ~ is not supported on floats"
  | PyExpr.call f args =>
    match f with
    | PyExpr.name s =>
      match ctx.lookup s with
      | some (CtxVal.func fn) =>
        match neEvaluateArgs tm ctx args with
        | Except.error e => Except.error e
        | Except.ok vals =>
          match vals with
          | [Value.scalar v] => Except.ok (Value.scalar (fn v))
          | [Value.vector vs] => Except.ok (Value.vector (vs.map fn))
          | _ => Except.error ("wrong number of arguments to " ++ s)
      | _ => Except.error ("not a function: " ++ s)
    | _ => Except.error "calling a non-name expression"

def neEvaluateArgs (tm : TranscModel) (ctx : Ctx) : PyArgs → Except String (List Value)
  | PyArgs.nil => Except.ok []
  | PyArgs.cons a rest =>
    match neEvaluate tm ctx a with
    | Except.error e => Except.error e
    | Except.ok v =>
      match neEvaluateArgs tm ctx rest with
      | Except.error e => Except.error e
      | Except.ok vs => Except.ok (v :: vs)

end

/-- `ExpressionParser.compile_expression`: `^` becomes `**` (the `pi\b` and
`e\b` rewrites of the source replace the match with itself and are textual
identities). -/
def compile_expression (expression : String) : String :=
  ⟨reSub (pLit "^".data "**".data) expression.data⟩

/-- `np.where(np.isfinite(result), result, np.nan)`, elementwise. -/
def whereFinite : Value → Value :=
  applyUn (fun v => if v.isSome then v else none)

/-- The base context of `evaluate_expression` (the Python dict merge
`{'x': x_values, **MATH_FUNCTIONS, **MATH_CONSTANTS, **(params or {})}`,
ordered so that `List.lookup` respects the dict override order). -/
def evalBase (tm : TranscModel) (ps : List (String × Flt)) (xs : List PFloat) : Ctx :=
  (ps.map (fun p => (p.1, CtxVal.scalar (some p.2)))) ++
    math_constants_ctx ++ math_functions tm ++ [("x", CtxVal.vector xs)]

/-- The defaults loop of `evaluate_expression`: every extracted variable
other than `x` that is not yet bound is given the caller's value or the
`0.0` default; with `params = None`, Python's `var in params` membership test
raises `TypeError`, which aborts the evaluation. -/
def addDefaults (params : Option (List (String × Flt))) :
    List String → Ctx → Except String Ctx
  | [], ctx => Except.ok ctx
  | var :: rest, ctx =>
    if var ≠ "x" && (ctx.lookup var).isNone then
      match params with
      | none => Except.error "argument of type 'NoneType' is not iterable"
      | some ps =>
        if (ps.lookup var).isSome then
          addDefaults params rest ((var, CtxVal.scalar (some ((ps.lookup var).getD 0))) :: ctx)
        else
          addDefaults params rest ((var, CtxVal.scalar (some 0)) :: ctx)
    else addDefaults params rest ctx

/-- `ExpressionEvaluator.evaluate_expression`.  `params = none` models the
Python default `params=None`; every exception is re-raised as
`ValueError("Expression evaluation failed: ...")`. -/
def evaluate_expression (tm : TranscModel) (expression : String)
    (x_values : List PFloat) (params : Option (List (String × Flt))) :
    Except String Value :=
  match validate_expression expression with
  | (false, error_msg) =>
    Except.error ("Expression evaluation failed: " ++ error_msg.getD "")
  | (true, _) =>
    let compiled := compile_expression expression
    let base : Ctx := evalBase tm (params.getD []) x_values
    match extract_variables expression with
    | Except.error e => Except.error ("Expression evaluation failed: " ++ e)
    | Except.ok varNames =>
      match addDefaults params varNames base with
      | Except.error e => Except.error ("Expression evaluation failed: " ++ e)
      | Except.ok ctx =>
        match pyParse compiled with
        | Except.error e => Except.error ("Expression evaluation failed: " ++ e)
        | Except.ok ast =>
          match neEvaluate tm ctx ast with
          | Except.error e => Except.error ("Expression evaluation failed: " ++ e)
          | Except.ok result => Except.ok (whereFinite result)

section EvalTest

example : evaluate_expression transcZero "a*x" [some 1, some 2] none =
    Except.error "Expression evaluation failed: argument of type 'NoneType' is not iterable" := rfl
example : evaluate_expression transcZero "a*x" [some 1, some 2] (some []) =
    Except.ok (Value.vector [some 0, some 0]) := rfl
example : evaluate_expression transcZero "5" [some 1, some 2] (some []) =
    Except.ok (Value.scalar (some 5)) := rfl
example : evaluate_expression transcZero "x^2" [] (some []) =
    Except.ok (Value.vector []) := rfl
example : evaluate_expression transcZero "x^2" [some 3] (some []) =
    Except.ok (Value.vector [some 9]) := rfl
example : evaluate_expression transcZero "1/x" [some 0, some 1] (some []) =
    Except.ok (Value.vector [none, some 1]) := rfl
example : evaluate_expression transcZero "a*x^2 + b" [some 2]
    (some [("a", 1), ("b", 3)]) = Except.ok (Value.vector [some 7]) := rfl

end EvalTest

/-! ## Structural lemmas about vectorized evaluation -/

/-- Number of arguments. -/
def PyArgs.size : PyArgs → Nat
  | PyArgs.nil => 0
  | PyArgs.cons _ r => 1 + PyArgs.size r

/-- A result is a scalar or a vector of the context's sample count. -/
def shapeOK (n : ℕ) : Value → Prop
  | Value.scalar _ => True
  | Value.vector l => l.length = n

/-- Every vector bound in the context has the sample count's length. -/
def ctxWF (n : ℕ) (ctx : Ctx) : Prop :=
  ∀ s vs, ctx.lookup s = some (CtxVal.vector vs) → vs.length = n

theorem applyBin_shape {n : ℕ} {f : PFloat → PFloat → PFloat} {a b : Value}
    {v : Value} (ha : shapeOK n a) (hb : shapeOK n b)
    (h : applyBin f a b = Except.ok v) : shapeOK n v := by
  cases a with
  | scalar x =>
    cases b with
    | scalar y => cases h; trivial
    | vector ys => cases h; simpa [shapeOK] using hb
  | vector xs =>
    cases b with
    | scalar y => cases h; simpa [shapeOK] using ha
    | vector ys =>
      simp only [applyBin] at h
      split at h
      · cases h
        simp only [shapeOK, List.length_zipWith]
        simp only [shapeOK] at ha hb
        omega
      · cases h

theorem applyBin_vector {f : PFloat → PFloat → PFloat} {a b : Value} {v : Value}
    (h : applyBin f a b = Except.ok v)
    (hv : (∃ l, a = Value.vector l) ∨ ∃ l, b = Value.vector l) :
    ∃ l, v = Value.vector l := by
  cases a with
  | scalar x =>
    cases b with
    | scalar y =>
      rcases hv with ⟨l, hl⟩ | ⟨l, hl⟩ <;> cases hl
    | vector ys => cases h; exact ⟨_, rfl⟩
  | vector xs =>
    cases b with
    | scalar y => cases h; exact ⟨_, rfl⟩
    | vector ys =>
      simp only [applyBin] at h
      split at h
      · cases h; exact ⟨_, rfl⟩
      · cases h

theorem neEvaluateArgs_length (tm : TranscModel) (ctx : Ctx) :
    ∀ (args : PyArgs) (vs : List Value),
      neEvaluateArgs tm ctx args = Except.ok vs → vs.length = PyArgs.size args
  | PyArgs.nil, vs, h => by cases h; rfl
  | PyArgs.cons a rest, vs, h => by
    simp only [neEvaluateArgs] at h
    cases ha : neEvaluate tm ctx a with
    | error e => rw [ha] at h; cases h
    | ok v =>
      rw [ha] at h
      cases hr : neEvaluateArgs tm ctx rest with
      | error e => rw [hr] at h; cases h
      | ok vs' =>
        rw [hr] at h
        cases h
        simp only [List.length_cons, PyArgs.size, neEvaluateArgs_length tm ctx rest vs' hr]
        omega

/-- Shape soundness: evaluation in a well-formed context yields a scalar or
a vector of the sample count's length. -/
theorem neEvaluate_shape (tm : TranscModel) (n : ℕ) :
    ∀ (e : PyExpr) (ctx : Ctx), ctxWF n ctx →
      ∀ v, neEvaluate tm ctx e = Except.ok v → shapeOK n v
  | PyExpr.num _, ctx, _, v, h => by cases h; trivial
  | PyExpr.name s, ctx, hw, v, h => by
    simp only [neEvaluate] at h
    cases hl : ctx.lookup s with
    | none => rw [hl] at h; cases h
    | some cv =>
      rw [hl] at h
      cases cv with
      | scalar x => cases h; trivial
      | vector xs => cases h; exact hw s xs hl
      | func f => cases h
  | PyExpr.binop op l r, ctx, hw, v, h => by
    simp only [neEvaluate] at h
    cases hl : neEvaluate tm ctx l with
    | error e => rw [hl] at h; cases h
    | ok vl =>
      rw [hl] at h
      cases hr : neEvaluate tm ctx r with
      | error e => rw [hr] at h; cases h
      | ok vr =>
        rw [hr] at h
        exact applyBin_shape (neEvaluate_shape tm n l ctx hw vl hl)
          (neEvaluate_shape tm n r ctx hw vr hr) h
  | PyExpr.unary op e, ctx, hw, v, h => by
    simp only [neEvaluate] at h
    cases he : neEvaluate tm ctx e with
    | error er => rw [he] at h; cases h
    | ok ve =>
      rw [he] at h
      have hs := neEvaluate_shape tm n e ctx hw ve he
      cases op with
      | usub =>
        cases h
        cases ve with
        | scalar x => trivial
        | vector xs => simpa [applyUn, shapeOK] using hs
      | uadd => cases h; exact hs
      | invert => cases h
  | PyExpr.call f args, ctx, hw, v, h => by
    cases f with
    | num q => simp only [neEvaluate] at h; cases h
    | binop op l r => simp only [neEvaluate] at h; cases h
    | unary op e => simp only [neEvaluate] at h; cases h
    | call g as => simp only [neEvaluate] at h; cases h
    | name s =>
      simp only [neEvaluate] at h
      cases hl : ctx.lookup s with
      | none => rw [hl] at h; cases h
      | some cv =>
        rw [hl] at h
        cases cv with
        | scalar x => cases h
        | vector xs => cases h
        | func fn =>
          cases hargs : neEvaluateArgs tm ctx args with
          | error e => rw [hargs] at h; cases h
          | ok vals =>
            rw [hargs] at h
            cases args with
            | nil =>
              cases hargs
              cases h
            | cons a rest =>
              cases rest with
              | cons b r2 =>
                have hlen := neEvaluateArgs_length tm ctx _ _ hargs
                simp only [PyArgs.size] at hlen
                cases vals with
                | nil => cases h
                | cons v0 vtl =>
                  cases vtl with
                  | nil =>
                    simp only [List.length_cons, List.length_nil] at hlen
                    omega
                  | cons v1 vtl2 => cases v0 <;> cases h
              | nil =>
                simp only [neEvaluateArgs] at hargs
                cases ha2 : neEvaluate tm ctx a with
                | error e => rw [ha2] at hargs; cases hargs
                | ok v2 =>
                  rw [ha2] at hargs
                  cases hargs
                  have hs := neEvaluate_shape tm n a ctx hw v2 ha2
                  cases v2 with
                  | scalar x => cases h; trivial
                  | vector xs =>
                    cases h
                    simpa [shapeOK] using hs

/-- Vector soundness: an expression that mentions a vector-bound name
cannot evaluate to a scalar. -/
theorem neEvaluate_vector (tm : TranscModel) (s : String) :
    ∀ (e : PyExpr) (ctx : Ctx) (xs : List PFloat),
      ctx.lookup s = some (CtxVal.vector xs) → s ∈ collectNames e →
      ∀ v, neEvaluate tm ctx e = Except.ok v → ∃ l, v = Value.vector l
  | PyExpr.num _, ctx, xs, hx, hm, v, h => by simp [collectNames] at hm
  | PyExpr.name t, ctx, xs, hx, hm, v, h => by
    simp only [collectNames, List.mem_singleton] at hm
    subst hm
    simp only [neEvaluate, hx] at h
    cases h
    exact ⟨xs, rfl⟩
  | PyExpr.binop op l r, ctx, xs, hx, hm, v, h => by
    simp only [neEvaluate] at h
    cases hl : neEvaluate tm ctx l with
    | error e => rw [hl] at h; cases h
    | ok vl =>
      rw [hl] at h
      cases hr : neEvaluate tm ctx r with
      | error e => rw [hr] at h; cases h
      | ok vr =>
        rw [hr] at h
        simp only [collectNames, List.mem_append] at hm
        rcases hm with hm | hm
        · exact applyBin_vector h (Or.inl (neEvaluate_vector tm s l ctx xs hx hm vl hl))
        · exact applyBin_vector h (Or.inr (neEvaluate_vector tm s r ctx xs hx hm vr hr))
  | PyExpr.unary op e, ctx, xs, hx, hm, v, h => by
    simp only [neEvaluate] at h
    cases he : neEvaluate tm ctx e with
    | error er => rw [he] at h; cases h
    | ok ve =>
      rw [he] at h
      simp only [collectNames] at hm
      obtain ⟨l, rfl⟩ := neEvaluate_vector tm s e ctx xs hx hm ve he
      cases op with
      | usub => cases h; exact ⟨_, rfl⟩
      | uadd => cases h; exact ⟨_, rfl⟩
      | invert => cases h
  | PyExpr.call f args, ctx, xs, hx, hm, v, h => by
    cases f with
    | num q => simp only [neEvaluate] at h; cases h
    | binop op l r => simp only [neEvaluate] at h; cases h
    | unary op e => simp only [neEvaluate] at h; cases h
    | call g as => simp only [neEvaluate] at h; cases h
    | name fn =>
      simp only [neEvaluate] at h
      cases hl : ctx.lookup fn with
      | none => rw [hl] at h; cases h
      | some cv =>
        rw [hl] at h
        cases cv with
        | scalar x => cases h
        | vector vs2 => cases h
        | func fimpl =>
          simp only [collectNames, List.mem_append, List.mem_singleton] at hm
          rcases hm with hm | hm
          · subst hm
            rw [hx] at hl
            cases hl
          · cases hargs : neEvaluateArgs tm ctx args with
            | error e => rw [hargs] at h; cases h
            | ok vals =>
              rw [hargs] at h
              cases args with
              | nil =>
                cases hargs
                cases h
              | cons a rest =>
                cases rest with
                | cons b r2 =>
                  have hlen := neEvaluateArgs_length tm ctx _ _ hargs
                  simp only [PyArgs.size] at hlen
                  cases vals with
                  | nil => cases h
                  | cons v0 vtl =>
                    cases vtl with
                    | nil =>
                      simp only [List.length_cons, List.length_nil] at hlen
                      omega
                    | cons v1 vtl2 => cases v0 <;> cases h
                | nil =>
                  simp only [collectNamesArgs, collectNames, List.append_nil] at hm
                  simp only [neEvaluateArgs] at hargs
                  cases ha2 : neEvaluate tm ctx a with
                  | error e => rw [ha2] at hargs; cases hargs
                  | ok v2 =>
                    rw [ha2] at hargs
                    cases hargs
                    obtain ⟨l, rfl⟩ := neEvaluate_vector tm s a ctx xs hx hm v2 ha2
                    cases h
                    exact ⟨_, rfl⟩

/-- Entries that are not arrays (scalars and functions). -/
def nonVectorCtx (l : Ctx) : Prop :=
  ∀ p ∈ l, ∀ vs, p.2 ≠ CtxVal.vector vs

theorem lookup_vector_of_append {l1 l2 : Ctx} (h1 : nonVectorCtx l1)
    (s : String) (vs : List PFloat) :
    (l1 ++ l2).lookup s = some (CtxVal.vector vs) →
      l2.lookup s = some (CtxVal.vector vs) := by
  induction l1 with
  | nil => exact fun h => h
  | cons p t ih =>
    intro h
    simp only [List.cons_append, List.lookup] at h
    split at h
    · exact absurd (Option.some.inj h) (h1 p (List.mem_cons_self p t) vs)
    · exact ih (fun q hq => h1 q (List.mem_cons_of_mem p hq)) h

theorem lookup_append_of_keys_ne {l1 l2 : Ctx} {s : String}
    (h : ∀ p ∈ l1, p.1 ≠ s) : (l1 ++ l2).lookup s = l2.lookup s := by
  induction l1 with
  | nil => rfl
  | cons p t ih =>
    simp only [List.cons_append, List.lookup]
    have hne : (s == p.1) = false := by
      refine beq_false_of_ne ?_
      exact fun hs => h p (List.mem_cons_self p t) (hs ▸ rfl)
    rw [hne]
    exact ih (fun q hq => h q (List.mem_cons_of_mem p hq))

/-- Non-array context entries, as a computation. -/
def entryNonVector : CtxVal → Bool
  | CtxVal.vector _ => false
  | _ => true

theorem nonVectorCtx_of_all {l : Ctx}
    (h : l.all (fun p => entryNonVector p.2) = true) : nonVectorCtx l := by
  intro p hp vs hv
  have := (List.all_eq_true.1 h) p hp
  rw [hv] at this
  cases this

theorem evalBase_front_nonVector (tm : TranscModel) (ps : List (String × Flt)) :
    nonVectorCtx ((ps.map (fun p => (p.1, CtxVal.scalar (some p.2)))) ++
      math_constants_ctx ++ math_functions tm) := by
  intro p hp vs hv
  simp only [List.append_assoc, List.mem_append, List.mem_map] at hp
  rcases hp with ⟨q, _, rfl⟩ | hp
  · cases hv
  · have hall : (math_constants_ctx ++ math_functions tm).all
        (fun p => entryNonVector p.2) = true := rfl
    exact nonVectorCtx_of_all hall p (by simpa using hp) vs hv

theorem evalBase_wf (tm : TranscModel) (ps : List (String × Flt))
    (xs : List PFloat) : ctxWF xs.length (evalBase tm ps xs) := by
  intro s vs hl
  have h2 := @lookup_vector_of_append _ [("x", CtxVal.vector xs)]
    (evalBase_front_nonVector tm ps) s vs (by
      simpa [evalBase, List.append_assoc] using hl)
  simp only [List.lookup] at h2
  split at h2
  · cases h2; rfl
  · cases h2

theorem addDefaults_inv (params : Option (List (String × Flt))) :
    ∀ (vars : List String) (base ctx : Ctx),
      addDefaults params vars base = Except.ok ctx →
      ∃ extra : Ctx, ctx = extra ++ base ∧ nonVectorCtx extra ∧
        ∀ p ∈ extra, p.1 ≠ "x" := by
  intro vars
  induction vars with
  | nil =>
    intro base ctx h
    cases h
    refine ⟨[], rfl, ?_, ?_⟩
    · intro p hp; cases hp
    · intro p hp; cases hp
  | cons var rest ih =>
    intro base ctx h
    simp only [addDefaults] at h
    split at h
    · rename_i hcond
      have hx : var ≠ "x" := by
        simp only [Bool.and_eq_true, decide_eq_true_eq] at hcond
        exact hcond.1
      cases params with
      | none => cases h
      | some ps =>
        simp only [] at h
        split at h
        · obtain ⟨extra, rfl, hnv, hkeys⟩ := ih _ _ h
          refine ⟨extra ++ [(var, CtxVal.scalar (some ((ps.lookup var).getD 0)))], by simp, ?_, ?_⟩
          · intro p hp vs hv
            rcases List.mem_append.1 hp with hp | hp
            · exact hnv p hp vs hv
            · simp only [List.mem_singleton] at hp
              subst hp
              cases hv
          · intro p hp
            rcases List.mem_append.1 hp with hp | hp
            · exact hkeys p hp
            · simp only [List.mem_singleton] at hp
              subst hp
              exact hx
        · obtain ⟨extra, rfl, hnv, hkeys⟩ := ih _ _ h
          refine ⟨extra ++ [(var, CtxVal.scalar (some 0))], by simp, ?_, ?_⟩
          · intro p hp vs hv
            rcases List.mem_append.1 hp with hp | hp
            · exact hnv p hp vs hv
            · simp only [List.mem_singleton] at hp
              subst hp
              cases hv
          · intro p hp
            rcases List.mem_append.1 hp with hp | hp
            · exact hkeys p hp
            · simp only [List.mem_singleton] at hp
              subst hp
              exact hx
    · exact ih _ _ h

/-- A context produced by the defaults loop over the base is well-formed. -/
theorem addDefaults_wf (tm : TranscModel) (params : Option (List (String × Flt)))
    (ps : List (String × Flt)) (xs : List PFloat) (vars : List String) (ctx : Ctx)
    (h : addDefaults params vars (evalBase tm ps xs) = Except.ok ctx) :
    ctxWF xs.length ctx := by
  obtain ⟨extra, rfl, hnv, _⟩ := addDefaults_inv params vars _ ctx h
  intro s vs hl
  exact evalBase_wf tm ps xs s vs (lookup_vector_of_append hnv s vs hl)

/-- With `params = {}`, the final context still binds `x` to the samples. -/
theorem addDefaults_lookup_x (tm : TranscModel)
    (params : Option (List (String × Flt))) (xs : List PFloat)
    (vars : List String) (ctx : Ctx)
    (h : addDefaults params vars (evalBase tm [] xs) = Except.ok ctx) :
    ctx.lookup "x" = some (CtxVal.vector xs) := by
  obtain ⟨extra, rfl, _, hkeys⟩ := addDefaults_inv params vars _ ctx h
  rw [lookup_append_of_keys_ne hkeys]
  have hfront : ∀ p ∈ (([] : List (String × Flt)).map
      (fun p => (p.1, CtxVal.scalar (some p.2)))) ++
        math_constants_ctx ++ math_functions tm, p.1 ≠ "x" := by
    intro p hp
    have hall : ((([] : List (String × Flt)).map
        (fun p => (p.1, CtxVal.scalar (some p.2)))) ++
          math_constants_ctx ++ math_functions tm).all
        (fun p => !(p.1 == "x")) = true := rfl
    have := (List.all_eq_true.1 hall) p hp
    simpa using this
  calc (evalBase tm [] xs).lookup "x"
      = ([("x", CtxVal.vector xs)] : Ctx).lookup "x" := by
        rw [evalBase]
        rw [show (([] : List (String × Flt)).map
            (fun p => (p.1, CtxVal.scalar (some p.2)))) ++
            math_constants_ctx ++ math_functions tm ++ [("x", CtxVal.vector xs)] =
          ((([] : List (String × Flt)).map
            (fun p => (p.1, CtxVal.scalar (some p.2)))) ++
            math_constants_ctx ++ math_functions tm) ++ [("x", CtxVal.vector xs)] from by
            simp [List.append_assoc]]
        exact lookup_append_of_keys_ne hfront
    _ = some (CtxVal.vector xs) := rfl

/-! ### Pointwise restriction: one sample's output depends on that sample
alone.  `ctxRestrict i` replaces every array in the context by the singleton
of its `i`-th element; evaluation commutes with this restriction, which is
the formal content of "a numeric failure affects only its own sample". -/

theorem getD_map {α β : Type} (f : α → β) :
    ∀ (l : List α) (i : ℕ), i < l.length → ∀ (d : β) (d2 : α),
      (l.map f).getD i d = f (l.getD i d2) := by
  intro l
  induction l with
  | nil => intro i hi; cases hi
  | cons a t ih =>
    intro i hi d d2
    cases i with
    | zero => rfl
    | succ j =>
      simp only [List.map_cons, List.getD_cons_succ]
      exact ih j (by simpa using hi) d d2

theorem getD_zipWith {α : Type} (f : α → α → α) :
    ∀ (as bs : List α) (i : ℕ), i < as.length → i < bs.length →
      ∀ (d da db : α),
        (List.zipWith f as bs).getD i d = f (as.getD i da) (bs.getD i db) := by
  intro as
  induction as with
  | nil => intro bs i hi; cases hi
  | cons a at' ih =>
    intro bs i hi hbi d da db
    cases bs with
    | nil => cases hbi
    | cons b bt =>
      cases i with
      | zero => rfl
      | succ j =>
        simp only [List.zipWith_cons_cons, List.getD_cons_succ]
        exact ih bt j (by simpa using hi) (by simpa using hbi) d da db

def restrictCtxVal (i : ℕ) : CtxVal → CtxVal
  | CtxVal.vector vs => CtxVal.vector [vs.getD i none]
  | v => v

def ctxRestrict (i : ℕ) (ctx : Ctx) : Ctx :=
  ctx.map (fun p => (p.1, restrictCtxVal i p.2))

def restrictValue (i : ℕ) : Value → Value
  | Value.scalar s => Value.scalar s
  | Value.vector l => Value.vector [l.getD i none]

theorem lookup_ctxRestrict (i : ℕ) (s : String) :
    ∀ ctx : Ctx, (ctxRestrict i ctx).lookup s = (ctx.lookup s).map (restrictCtxVal i) := by
  intro ctx
  induction ctx with
  | nil => rfl
  | cons p t ih =>
    simp only [ctxRestrict, List.map_cons, List.lookup]
    by_cases hs : (s == p.1) = true
    · rw [hs]
      rfl
    · rw [Bool.not_eq_true] at hs
      rw [hs]
      exact ih

theorem applyBin_restrict {n i : ℕ} (hi : i < n) (f : PFloat → PFloat → PFloat)
    {a b v : Value} (ha : shapeOK n a) (hb : shapeOK n b)
    (h : applyBin f a b = Except.ok v) :
    applyBin f (restrictValue i a) (restrictValue i b) =
      Except.ok (restrictValue i v) := by
  cases a with
  | scalar x =>
    cases b with
    | scalar y => cases h; rfl
    | vector ys =>
      cases h
      simp only [shapeOK] at hb
      simp only [restrictValue, applyBin, List.map_cons, List.map_nil]
      rw [getD_map (f x) ys i (by omega) none none]
  | vector xs =>
    cases b with
    | scalar y =>
      cases h
      simp only [shapeOK] at ha
      simp only [restrictValue, applyBin, List.map_cons, List.map_nil]
      rw [getD_map (f · y) xs i (by omega) none none]
    | vector ys =>
      simp only [applyBin] at h
      split at h
      · cases h
        rename_i hlen
        simp only [shapeOK] at ha hb
        simp only [restrictValue, applyBin, List.length_cons, List.length_nil, if_pos rfl]
        simp only [List.zipWith_cons_cons, List.zipWith_nil_right]
        rw [getD_zipWith f xs ys i (by omega) (by omega) none none none]
        simp
      · cases h

theorem applyUn_restrict {n i : ℕ} (hi : i < n) (f : PFloat → PFloat)
    {v : Value} (hv : shapeOK n v) :
    applyUn f (restrictValue i v) = restrictValue i (applyUn f v) := by
  cases v with
  | scalar x => rfl
  | vector xs =>
    simp only [shapeOK] at hv
    simp only [restrictValue, applyUn, List.map_cons, List.map_nil]
    rw [getD_map f xs i (by omega) none none]

/-- Evaluation commutes with pointwise restriction of the context. -/
theorem neEvaluate_restrict (tm : TranscModel) (n i : ℕ) (hi : i < n) :
    ∀ (e : PyExpr) (ctx : Ctx), ctxWF n ctx →
      ∀ v, neEvaluate tm ctx e = Except.ok v →
        neEvaluate tm (ctxRestrict i ctx) e = Except.ok (restrictValue i v)
  | PyExpr.num q, ctx, hw, v, h => by cases h; rfl
  | PyExpr.name s, ctx, hw, v, h => by
    simp only [neEvaluate, lookup_ctxRestrict]
    simp only [neEvaluate] at h
    cases hl : ctx.lookup s with
    | none => rw [hl] at h; cases h
    | some cv =>
      rw [hl] at h
      cases cv with
      | scalar x => cases h; rfl
      | vector xs => cases h; rfl
      | func f => cases h
  | PyExpr.binop op l r, ctx, hw, v, h => by
    simp only [neEvaluate] at h ⊢
    cases hl : neEvaluate tm ctx l with
    | error e => rw [hl] at h; cases h
    | ok vl =>
      rw [hl] at h
      cases hr : neEvaluate tm ctx r with
      | error e => rw [hr] at h; cases h
      | ok vr =>
        rw [hr] at h
        rw [neEvaluate_restrict tm n i hi l ctx hw vl hl,
          neEvaluate_restrict tm n i hi r ctx hw vr hr]
        exact applyBin_restrict hi _ (neEvaluate_shape tm n l ctx hw vl hl)
          (neEvaluate_shape tm n r ctx hw vr hr) h
  | PyExpr.unary op e, ctx, hw, v, h => by
    simp only [neEvaluate] at h ⊢
    cases he : neEvaluate tm ctx e with
    | error er => rw [he] at h; cases h
    | ok ve =>
      rw [he] at h
      rw [neEvaluate_restrict tm n i hi e ctx hw ve he]
      have hs := neEvaluate_shape tm n e ctx hw ve he
      cases op with
      | usub =>
        cases h
        show Except.ok (applyUn pfNeg (restrictValue i ve)) =
          Except.ok (restrictValue i (applyUn pfNeg ve))
        rw [applyUn_restrict hi pfNeg hs]
      | uadd => cases h; rfl
      | invert => cases h
  | PyExpr.call f args, ctx, hw, v, h => by
    cases f with
    | num q => simp only [neEvaluate] at h; cases h
    | binop op l r => simp only [neEvaluate] at h; cases h
    | unary op e => simp only [neEvaluate] at h; cases h
    | call g as => simp only [neEvaluate] at h; cases h
    | name s =>
      simp only [neEvaluate] at h ⊢
      rw [lookup_ctxRestrict]
      cases hl : ctx.lookup s with
      | none => rw [hl] at h; cases h
      | some cv =>
        rw [hl] at h
        cases cv with
        | scalar x => cases h
        | vector xs => cases h
        | func fn =>
          cases hargs : neEvaluateArgs tm ctx args with
          | error e => rw [hargs] at h; cases h
          | ok vals =>
            rw [hargs] at h
            cases args with
            | nil =>
              cases hargs
              cases h
            | cons a rest =>
              cases rest with
              | cons b r2 =>
                have hlen := neEvaluateArgs_length tm ctx _ _ hargs
                simp only [PyArgs.size] at hlen
                cases vals with
                | nil => cases h
                | cons v0 vtl =>
                  cases vtl with
                  | nil =>
                    simp only [List.length_cons, List.length_nil] at hlen
                    omega
                  | cons v1 vtl2 => cases v0 <;> cases h
              | nil =>
                simp only [neEvaluateArgs] at hargs
                cases ha2 : neEvaluate tm ctx a with
                | error e => rw [ha2] at hargs; cases hargs
                | ok v2 =>
                  rw [ha2] at hargs
                  cases hargs
                  have hres := neEvaluate_restrict tm n i hi a ctx hw v2 ha2
                  have hs := neEvaluate_shape tm n a ctx hw v2 ha2
                  simp only [neEvaluateArgs, hres]
                  cases v2 with
                  | scalar x => cases h; rfl
                  | vector xs =>
                    cases h
                    simp only [shapeOK] at hs
                    simp only [restrictValue, List.map_cons, List.map_nil]
                    rw [getD_map fn xs i (by omega) none none]
                    rfl

/-- Whether the compiled expression's AST mentions the variable `x`. -/
def compiledMentionsX (e : String) : Bool :=
  match pyParse (compile_expression e) with
  | Except.ok ast => (collectNames ast).contains "x"
  | Except.error _ => false

theorem whereFinite_shape {n : ℕ} {v : Value} (h : shapeOK n v) :
    shapeOK n (whereFinite v) := by
  cases v with
  | scalar x => trivial
  | vector l => simpa [whereFinite, applyUn, shapeOK] using h

/-- A successful evaluation with `params = {}` returns a scalar or an array of
the same length as `x_values`; when the compiled expression mentions `x`, the
result is always an array of that length. -/
theorem evaluate_expression_shape (tm : TranscModel) (e : String)
    (xs : List PFloat) (r : Value)
    (h : evaluate_expression tm e xs (some []) = Except.ok r) :
    shapeOK xs.length r ∧
      (compiledMentionsX e = true →
        ∃ l, r = Value.vector l ∧ l.length = xs.length) := by
  simp only [evaluate_expression] at h
  cases hval : validate_expression e with
  | mk b msg =>
    rw [hval] at h
    cases b with
    | false => cases h
    | true =>
      cases hex : extract_variables e with
      | error er => rw [hex] at h; cases h
      | ok varNames =>
        rw [hex] at h
        simp only [Option.getD] at h
        cases had : addDefaults (some []) varNames (evalBase tm [] xs) with
        | error er => rw [had] at h; cases h
        | ok ctx =>
          rw [had] at h
          simp only [] at h
          cases hp : pyParse (compile_expression e) with
          | error er => rw [hp] at h; cases h
          | ok ast =>
            rw [hp] at h
            simp only [] at h
            cases hne : neEvaluate tm ctx ast with
            | error er => rw [hne] at h; cases h
            | ok result =>
              rw [hne] at h
              cases h
              have hwf : ctxWF xs.length ctx :=
                addDefaults_wf tm (some []) [] xs varNames ctx had
              have hshape := neEvaluate_shape tm xs.length ast ctx hwf result hne
              refine ⟨whereFinite_shape hshape, ?_⟩
              intro hm
              simp only [compiledMentionsX, hp] at hm
              have hmem : "x" ∈ collectNames ast := by
                simpa using hm
              have hx : ctx.lookup "x" = some (CtxVal.vector xs) :=
                addDefaults_lookup_x tm _ xs varNames ctx had
              obtain ⟨l, rfl⟩ :=
                neEvaluate_vector tm "x" ast ctx xs hx hmem result hne
              simp only [shapeOK] at hshape
              refine ⟨l.map (fun w => if w.isSome then w else none), ?_, ?_⟩
              · rfl
              · simpa using hshape

theorem ctxRestrict_nonVector {i : ℕ} {l : Ctx} (h : nonVectorCtx l) :
    ctxRestrict i l = l := by
  induction l with
  | nil => rfl
  | cons p t ih =>
    have hp : restrictCtxVal i p.2 = p.2 := by
      cases hv : p.2 with
      | vector vs => exact absurd hv (h p (List.mem_cons_self p t) vs)
      | scalar x => rfl
      | func f => rfl
    have ht := ih (fun q hq => h q (List.mem_cons_of_mem p hq))
    simp only [ctxRestrict, List.map_cons] at ht ⊢
    rw [hp, ht]

theorem ctxRestrict_append (i : ℕ) (a b : Ctx) :
    ctxRestrict i (a ++ b) = ctxRestrict i a ++ ctxRestrict i b :=
  List.map_append _ a b

theorem evalBase_restrict (tm : TranscModel) (ps : List (String × Flt))
    (xs : List PFloat) (i : ℕ) :
    evalBase tm ps [xs.getD i none] = ctxRestrict i (evalBase tm ps xs) := by
  have h1 : ∀ ys : List PFloat, evalBase tm ps ys =
      (ps.map (fun p => (p.1, CtxVal.scalar (some p.2))) ++
        math_constants_ctx ++ math_functions tm) ++ [("x", CtxVal.vector ys)] := by
    intro ys
    simp [evalBase, List.append_assoc]
  rw [h1, h1, ctxRestrict_append,
    ctxRestrict_nonVector (evalBase_front_nonVector tm ps)]
  rfl

theorem addDefaults_restrict (params : Option (List (String × Flt))) (i : ℕ) :
    ∀ (vars : List String) (ctx ctx' : Ctx),
      addDefaults params vars ctx = Except.ok ctx' →
      addDefaults params vars (ctxRestrict i ctx) =
        Except.ok (ctxRestrict i ctx') := by
  intro vars
  induction vars with
  | nil =>
    intro ctx ctx' h
    cases h
    rfl
  | cons var rest ih =>
    intro ctx ctx' h
    simp only [addDefaults] at h ⊢
    have hnone : ∀ o : Option CtxVal,
        (Option.map (restrictCtxVal i) o).isNone = o.isNone := by
      intro o; cases o <;> rfl
    rw [lookup_ctxRestrict, hnone]
    split at h
    · rename_i hcond
      rw [if_pos hcond]
      cases params with
      | none => cases h
      | some ps =>
        simp only [] at h ⊢
        split at h
        · rename_i hps
          rw [if_pos hps]
          exact ih _ _ h
        · rename_i hps
          rw [if_neg hps]
          exact ih _ _ h
    · rename_i hcond
      rw [if_neg hcond]
      exact ih _ _ h

/-- The `i`-th element of a successful array evaluation equals the result of
evaluating the expression on the singleton sample list `[x_values[i]]`:
each output element depends only on its own sample. -/
theorem evaluate_expression_pointwise (tm : TranscModel) (e : String)
    (xs : List PFloat) (params : Option (List (String × Flt)))
    (v : List PFloat) (i : ℕ) (hi : i < xs.length)
    (h : evaluate_expression tm e xs params = Except.ok (Value.vector v)) :
    evaluate_expression tm e [xs.getD i none] params =
      Except.ok (Value.vector [v.getD i none]) := by
  simp only [evaluate_expression] at h ⊢
  cases hval : validate_expression e with
  | mk b msg =>
    rw [hval] at h
    cases b with
    | false => cases h
    | true =>
      cases hex : extract_variables e with
      | error er => rw [hex] at h; cases h
      | ok varNames =>
        rw [hex] at h
        simp only [] at h ⊢
        cases had : addDefaults params varNames
            (evalBase tm (params.getD []) xs) with
        | error er => rw [had] at h; cases h
        | ok ctx =>
          rw [had] at h
          simp only [] at h
          rw [evalBase_restrict tm (params.getD []) xs i,
            addDefaults_restrict params i varNames _ ctx had]
          simp only []
          cases hp : pyParse (compile_expression e) with
          | error er => rw [hp] at h; cases h
          | ok ast =>
            rw [hp] at h
            simp only [] at h ⊢
            cases hne : neEvaluate tm ctx ast with
            | error er => rw [hne] at h; cases h
            | ok result =>
              rw [hne] at h
              have hwf : ctxWF xs.length ctx :=
                addDefaults_wf tm params (params.getD []) xs varNames ctx had
              rw [neEvaluate_restrict tm xs.length i hi ast ctx hwf result hne]
              simp only []
              cases result with
              | scalar s => cases h
              | vector l =>
                have hlen : l.length = xs.length :=
                  neEvaluate_shape tm xs.length ast ctx hwf _ hne
                have hv : v = l.map (fun w => if w.isSome then w else none) := by
                  have h2 := Except.ok.inj h
                  simp only [whereFinite, applyUn] at h2
                  exact (Value.vector.inj h2).symm
                subst hv
                simp only [restrictValue, whereFinite, applyUn, List.map_cons,
                  List.map_nil]
                rw [getD_map (fun w => if w.isSome then w else none) l i
                  (by omega) none none]

/-! ## The closed-form implicit solver
`ExpressionEvaluator.solve_implicit_equation` preprocesses the equation,
rewrites `**` back to `^`, and pattern-matches the text against the line,
circle and ellipse shapes.  The string analysis is embedded exactly; the
trigonometric point series the circle/ellipse branches emit are expressed
over `ℝ` in the theorems (`radius = sqrt(r2)`,
`angles = np.linspace(0, 2*pi, num_points)`). -/

/-- Outcome of the pattern match: the line branch's literal point lists, the
circle/ellipse parameters, or the empty fallback. -/
inductive ImplicitResult where
  | linePts (x_coords y_coords : List Flt)
  | circle (radius_squared : Flt)
  | ellipse (a_val b_val : Flt)
  | emptyResult
  deriving DecidableEq, Repr

/-- Head match for `(-?\d+(?:\.\d+)?)`: an optionally signed decimal. -/
def headSignedNumber (cs : List Char) : Option (Flt × List Char) :=
  let (negSign, cs1) :=
    match cs with
    | '-' :: rest => (true, rest)
    | _ => (false, cs)
  match stripDigits1 cs1 with
  | none => none
  | some (ds, rest) =>
    let withFrac : Option (Flt × List Char) :=
      match rest with
      | '.' :: rest2 =>
        match stripDigits1 rest2 with
        | some (fs, rest3) => some (decimalValue ds fs, rest3)
        | none => none
      | _ => none
    let (v, rest') := withFrac.getD (decimalValue ds [], rest)
    some (if negSign then -v else v, rest')

/-- Head match for `(\d+(?:\.\d+)?)`: an unsigned decimal. -/
def headNumber (cs : List Char) : Option (Flt × List Char) :=
  match cs with
  | '-' :: _ => none
  | _ => headSignedNumber cs

/-- `re.search(r'([xy])\s*=\s*(-?\d+(?:\.\d+)?)', s)`: the matched axis
letter and constant. -/
def searchSimpleMatch : List Char → Option (Char × Flt)
  | [] => none
  | c :: cs =>
    (if c = 'x' || c = 'y' then
      match stripSpaces cs with
      | '=' :: rest =>
        match headSignedNumber (stripSpaces rest) with
        | some (v, _) => some (c, v)
        | none => none
      | _ => none
    else none).orElse (fun _ => searchSimpleMatch cs)

/-- Head match for the circle pattern `x\^2\s*\+\s*y\^2\s*=`. -/
def headCircle (cs : List Char) : Bool :=
  match stripLit "x^2".data cs with
  | none => false
  | some r1 =>
    match stripSpaces r1 with
    | '+' :: r2 =>
      match stripLit "y^2".data (stripSpaces r2) with
      | none => false
      | some r3 =>
        match stripSpaces r3 with
        | '=' :: _ => true
        | _ => false
    | _ => false

/-- `re.search(r'=\s*(\d+(?:\.\d+)?)', s)`: the first `=` followed by an
unsigned decimal. -/
def searchEqNumber : List Char → Option Flt
  | [] => none
  | c :: cs =>
    (if c = '=' then
      match headNumber (stripSpaces cs) with
      | some (v, _) => some v
      | none => none
    else none).orElse (fun _ => searchEqNumber cs)

/-- Head match for the ellipse pattern
`x\^2\s*/\s*(\d+(?:\.\d+)?)\s*\+\s*y\^2(?:\s*/\s*(\d+(?:\.\d+)?))?\s*=\s*1`;
the optional `/b` group backtracks to absent if the `= 1` tail then fails. -/
def headEllipse (cs : List Char) : Option (Flt × Flt) :=
  match stripLit "x^2".data cs with
  | none => none
  | some r1 =>
    match stripSpaces r1 with
    | '/' :: r2 =>
      match headNumber (stripSpaces r2) with
      | none => none
      | some (a, r3) =>
        match stripSpaces r3 with
        | '+' :: r4 =>
          match stripLit "y^2".data (stripSpaces r4) with
          | none => none
          | some r5 =>
            let tail : List Char → Option Unit := fun l =>
              match stripSpaces l with
              | '=' :: l2 =>
                match stripSpaces l2 with
                | '1' :: _ => some ()
                | _ => none
              | _ => none
            let withB : Option (Flt × Flt) :=
              match stripSpaces r5 with
              | '/' :: r6 =>
                match headNumber (stripSpaces r6) with
                | some (b, r7) => (tail r7).map (fun _ => (a, b))
                | none => none
              | _ => none
            withB.orElse (fun _ => (tail r5).map (fun _ => (a, 1)))
        | _ => none
    | _ => none

def searchEllipse : List Char → Option (Flt × Flt)
  | [] => none
  | c :: cs => (headEllipse (c :: cs)).orElse (fun _ => searchEllipse cs)

/-- `ExpressionEvaluator.solve_implicit_equation` (pattern-match phase; the
`x_range` and `params` arguments are accepted and never used, as in the
source). -/
def solve_implicit_equation (equation : String) (_x_range : Flt × Flt)
    (num_points : Nat) (_params : Option (List (String × Flt)) := none) :
    ImplicitResult :=
  let eq1 := preprocess_expression equation
  let eq2 : List Char := replaceAll "**".data "^".data eq1.data
  match searchSimpleMatch eq2 with
  | some (axis, c) =>
    if axis = 'x' then
      ImplicitResult.linePts [c, c] [Flt.ofInt (Int.ofNat num_points), -(Flt.ofInt (Int.ofNat num_points))]
    else
      ImplicitResult.linePts [Flt.ofInt (Int.ofNat num_points), -(Flt.ofInt (Int.ofNat num_points))] [c, c]
  | none =>
    -- the circle branch returns only when its `=\s*(\d+...)` search also
    -- matches; otherwise control falls through to the ellipse pattern
    match (if anyPos headCircle eq2 then (searchEqNumber eq2).map ImplicitResult.circle
           else none) with
    | some r => r
    | none =>
      match searchEllipse eq2 with
      | some (a, b) => ImplicitResult.ellipse a b
      | none => ImplicitResult.emptyResult

/-! ## The segmenter
Modelled from the spec: the `generate_graph_data` in `src/` returns a flat
coordinate list, while the spec's §4.7 Segmenter and the repository's
discontinuity tests (`test_discontinuity*.py`, which read
`data['segments']`) describe a graph-data generation that partitions the
retained samples into continuous segments.  That segmenting code is not
under `src/`; the definitions below follow §4.7: a sample whose dependent
value is non-finite (`none`) is dropped and forces a break, and two adjacent
retained samples are separated when their values flip sign with both
magnitudes above a high fraction of the display bound (the pole
heuristic). -/

/-- Modelled from the spec: the intended display bound (`±30` in the
repository's boundary tests). -/
def display_bound : ℕ := 30

/-- Modelled from the spec: "a high fraction of the intended display bound"
— five sixths of `display_bound`. -/
def near_boundary_threshold : ℕ := 25

/-- The pole heuristic of §4.7: a sign flip with both magnitudes above the
threshold. -/
def poleBreak {α : Type} [LinearOrderedField α] (thr py y : α) : Prop :=
  ((py < 0 ∧ 0 < y) ∨ (y < 0 ∧ 0 < py)) ∧ thr < |py| ∧ thr < |y|

instance {α : Type} [LinearOrderedField α] (thr py y : α) :
    Decidable (poleBreak thr py y) := by
  unfold poleBreak; infer_instance

/-- Segmentation loop: `cur` is the current segment, in reverse. -/
def segGo {α : Type} [LinearOrderedField α] (thr : α) :
    List (α × Option α) → List (α × α) → List (List (α × α))
  | [], cur =>
    match cur with
    | [] => []
    | a :: t => [(a :: t).reverse]
  | (_, none) :: rest, cur =>
    match cur with
    | [] => segGo thr rest []
    | a :: t => (a :: t).reverse :: segGo thr rest []
  | (x, some y) :: rest, cur =>
    match cur with
    | [] => segGo thr rest [(x, y)]
    | (px, py) :: t =>
      if poleBreak thr py y then ((px, py) :: t).reverse :: segGo thr rest [(x, y)]
      else segGo thr rest ((x, y) :: (px, py) :: t)

/-- Modelled from the spec: partition a SampleSeries into Segments (§4.7). -/
def splitSegments {α : Type} [LinearOrderedField α] (thr : α)
    (samples : List (α × Option α)) : List (List (α × α)) :=
  segGo thr samples []

/-- The retained (finite) samples, in order. -/
def retainedSamples {α : Type} (samples : List (α × Option α)) : List (α × α) :=
  samples.filterMap (fun p => p.2.map (fun y => (p.1, y)))

section SegmenterLemmas

variable {α : Type} [LinearOrderedField α] (thr : α)

theorem segGo_flatten :
    ∀ (l : List (α × Option α)) (cur : List (α × α)),
      (segGo thr l cur).flatten = cur.reverse ++ retainedSamples l := by
  intro l
  induction l with
  | nil =>
    intro cur
    cases cur with
    | nil => simp [segGo, retainedSamples]
    | cons a t => simp [segGo, retainedSamples]
  | cons p rest ih =>
    intro cur
    obtain ⟨x, oy⟩ := p
    cases oy with
    | none =>
      cases cur with
      | nil => simpa [segGo, retainedSamples, List.filterMap_cons] using ih []
      | cons a t =>
        simp only [segGo, List.flatten_cons, ih []]
        simp [retainedSamples, List.filterMap_cons]
    | some y =>
      cases cur with
      | nil =>
        simp only [segGo, ih [(x, y)]]
        simp [retainedSamples, List.filterMap_cons]
      | cons a t =>
        obtain ⟨px, py⟩ := a
        by_cases hb : poleBreak thr py y
        · simp only [segGo, if_pos hb, List.flatten_cons, ih [(x, y)]]
          simp [retainedSamples, List.filterMap_cons]
        · simp only [segGo, if_neg hb, ih ((x, y) :: (px, py) :: t)]
          simp [retainedSamples, List.filterMap_cons]

/-- Concatenating the segments reproduces the retained samples in order. -/
theorem splitSegments_flatten (samples : List (α × Option α)) :
    (splitSegments thr samples).flatten = retainedSamples samples := by
  simpa using segGo_flatten thr samples []

/-- No two adjacent samples inside one segment satisfy the pole heuristic. -/
theorem segGo_chain :
    ∀ (l : List (α × Option α)) (cur : List (α × α)),
      List.Chain' (fun a b : α × α => ¬ poleBreak thr b.2 a.2) cur →
      ∀ seg ∈ segGo thr l cur,
        List.Chain' (fun a b : α × α => ¬ poleBreak thr a.2 b.2) seg := by
  intro l
  induction l with
  | nil =>
    intro cur hcur seg hseg
    cases cur with
    | nil => simp [segGo] at hseg
    | cons a t =>
      simp only [segGo, List.mem_singleton] at hseg
      subst hseg
      exact (List.chain'_reverse).2 hcur
  | cons p rest ih =>
    intro cur hcur seg hseg
    obtain ⟨x, oy⟩ := p
    cases oy with
    | none =>
      cases cur with
      | nil => exact ih [] List.chain'_nil seg hseg
      | cons a t =>
        simp only [segGo] at hseg
        rcases List.mem_cons.1 hseg with h | h
        · subst h
          exact (List.chain'_reverse).2 hcur
        · exact ih [] List.chain'_nil seg h
    | some y =>
      cases cur with
      | nil =>
        exact ih [(x, y)] (List.chain'_singleton _) seg hseg
      | cons a t =>
        obtain ⟨px, py⟩ := a
        by_cases hb : poleBreak thr py y
        · simp only [segGo, if_pos hb] at hseg
          rcases List.mem_cons.1 hseg with h | h
          · subst h
            exact (List.chain'_reverse).2 hcur
          · exact ih [(x, y)] (List.chain'_singleton _) seg h
        · simp only [segGo, if_neg hb] at hseg
          refine ih ((x, y) :: (px, py) :: t) ?_ seg hseg
          exact List.Chain'.cons hb hcur

theorem splitSegments_chain (samples : List (α × Option α)) :
    ∀ seg ∈ splitSegments thr samples,
      List.Chain' (fun a b : α × α => ¬ poleBreak thr a.2 b.2) seg :=
  segGo_chain thr samples [] List.chain'_nil

theorem segGo_length_pos :
    ∀ (l : List (α × Option α)) (cur : List (α × α)), cur ≠ [] →
      1 ≤ (segGo thr l cur).length := by
  intro l
  induction l with
  | nil =>
    intro cur hcur
    cases cur with
    | nil => exact absurd rfl hcur
    | cons a t => simp [segGo]
  | cons p rest ih =>
    intro cur hcur
    obtain ⟨x, oy⟩ := p
    cases oy with
    | none =>
      cases cur with
      | nil => exact absurd rfl hcur
      | cons a t => simp [segGo]
    | some y =>
      cases cur with
      | nil => exact absurd rfl hcur
      | cons a t =>
        obtain ⟨px, py⟩ := a
        by_cases hb : poleBreak thr py y
        · simp [segGo, if_pos hb]
        · simp only [segGo, if_neg hb]
          exact ih ((x, y) :: (px, py) :: t) (by simp)

/-- A breaking adjacent retained pair forces at least two segments. -/
theorem segGo_length_two {x1 y1 x2 y2 : α} :
    ∀ (l : List (α × Option α)) (i : ℕ) (cur : List (α × α)),
      l.get? i = some (x1, some y1) → l.get? (i + 1) = some (x2, some y2) →
      poleBreak thr y1 y2 →
      2 ≤ (segGo thr l cur).length := by
  intro l
  induction l with
  | nil => intro i cur h1 _ _; simp at h1
  | cons p rest ih =>
    intro i cur h1 h2 hb
    cases i with
    | succ i' =>
      -- the pair lies in `rest`; every branch ends in a recursive call
      have h1' : rest.get? i' = some (x1, some y1) := h1
      have h2' : rest.get? (i' + 1) = some (x2, some y2) := h2
      obtain ⟨x, oy⟩ := p
      cases oy with
      | none =>
        cases cur with
        | nil => exact ih i' [] h1' h2' hb
        | cons a t =>
          simp only [segGo, List.length_cons]
          have := ih i' [] h1' h2' hb
          omega
      | some y =>
        cases cur with
        | nil => exact ih i' [(x, y)] h1' h2' hb
        | cons a t =>
          obtain ⟨px, py⟩ := a
          by_cases hbr : poleBreak thr py y
          · simp only [segGo, if_pos hbr, List.length_cons]
            have := ih i' [(x, y)] h1' h2' hb
            omega
          · simp only [segGo, if_neg hbr]
            exact ih i' ((x, y) :: (px, py) :: t) h1' h2' hb
    | zero =>
      -- the pair is at the head: processing the first sample makes it the
      -- head of the current segment, and the second sample then breaks
      have hp : p = (x1, some y1) := by simpa using h1
      subst hp
      have hrest : ∃ rest2, rest = (x2, some y2) :: rest2 := by
        cases rest with
        | nil => simp at h2
        | cons q rest2 =>
          refine ⟨rest2, ?_⟩
          have : q = (x2, some y2) := by simpa using h2
          rw [this]
      obtain ⟨rest2, rfl⟩ := hrest
      have key : ∀ (t : List (α × α)),
          2 ≤ (segGo thr ((x2, some y2) :: rest2) ((x1, y1) :: t)).length := by
        intro t
        simp only [segGo, if_pos hb, List.length_cons]
        have := segGo_length_pos thr rest2 [(x2, y2)] (by simp)
        omega
      cases cur with
      | nil =>
        have : segGo thr ((x1, some y1) :: (x2, some y2) :: rest2) [] =
            segGo thr ((x2, some y2) :: rest2) [(x1, y1)] := rfl
        rw [this]
        exact key []
      | cons a t =>
        obtain ⟨px, py⟩ := a
        by_cases hbr : poleBreak thr py y1
        · simp only [segGo, if_pos hbr, if_pos hb, List.length_cons]
          omega
        · simp only [segGo, if_neg hbr]
          exact key ((px, py) :: t)

/-- Two segments at least, whenever some adjacent pair of the series is
retained on both sides and satisfies the pole heuristic. -/
theorem splitSegments_two {x1 y1 x2 y2 : α} (samples : List (α × Option α))
    (i : ℕ) (h1 : samples.get? i = some (x1, some y1))
    (h2 : samples.get? (i + 1) = some (x2, some y2))
    (hb : poleBreak thr y1 y2) :
    2 ≤ (splitSegments thr samples).length :=
  segGo_length_two thr samples i [] h1 h2 hb

end SegmenterLemmas

/-! ## Classifier/validator agreement -/

/-- On a non-implicit string whose parse fails, validation reports failure. -/
theorem validate_fst_of_parse_error (s : String) (msg : String)
    (hty : parse_expression_type s ≠ "implicit")
    (hp : pyParse s = Except.error msg) :
    (validate_expression s).1 = false := by
  rw [validate_expression]
  by_cases he : (parse_expression_type s ≠ "implicit" && s.data.contains '=') = true
  · rw [if_pos he]
  · rw [if_neg he]
    cases hf : findUnsupported (s.data.map Char.toLower) with
    | some pat => rfl
    | none =>
      have hty2 : (parse_expression_type s = "implicit") = False :=
        eq_false hty
      simp only [if_neg hty, hp]

/-- On error the extractor propagates a parse failure. -/
theorem extract_variables_error (s e' : String)
    (h : extract_variables s = Except.error e') :
    ∃ m, pyParse s = Except.error m := by
  rw [extract_variables] at h
  cases hp : pyParse s with
  | error m => exact ⟨m, rfl⟩
  | ok t => rw [hp] at h; cases h

/-- Classifier/validator agreement on the non-implicit branch: the
classifier's validity flag equals the validator's verdict on the
preprocessed expression. -/
theorem classify_agrees_validate (e : String)
    (hty : parse_expression_type (preprocess_expression e) ≠ "implicit") :
    (parse_and_classify_expression e).is_valid =
      (validate_expression (preprocess_expression e)).1 := by
  rw [parse_and_classify_expression]
  rw [if_neg hty]
  cases hex : extract_variables (preprocess_expression e) with
  | error msg =>
    obtain ⟨m, hm⟩ := extract_variables_error _ _ hex
    rw [validate_fst_of_parse_error _ m hty hm]
  | ok varNames =>
    cases hv : validate_expression (preprocess_expression e) with
    | mk b msg => rfl

/-! ## Tangent bounds at the samples that straddle π/2
The 500-point grid over (-10, 10) has x₂₈₈ = 770/499 ≈ 1.5431 and
x₂₈₉ = 790/499 ≈ 1.5832 on either side of π/2 ≈ 1.5708; the tangent exceeds
25 on the left and drops below -25 on the right, so the pole heuristic
breaks the series there. -/

theorem cos_gt_25_sin {s : ℝ} (h0 : 0 < s) (h1 : s ≤ 7 / 250) :
    25 * Real.sin s < Real.cos s := by
  have hs : Real.sin s < s := Real.sin_lt h0
  have hc : 1 - s ^ 2 / 2 ≤ Real.cos s := Real.one_sub_sq_div_two_le_cos
  nlinarith [hs, hc, h0, h1, sq_nonneg s,
    mul_le_mul h1 h1 h0.le (by norm_num : (0 : ℝ) ≤ 7 / 250)]

theorem tan_sample_left : 25 < Real.tan (770 / 499) := by
  have hπl : 3.141592 < Real.pi := Real.pi_gt_d6
  have hπu : Real.pi < 3.141593 := Real.pi_lt_d6
  norm_num at hπl hπu
  have hx_lt : (770 : ℝ) / 499 < Real.pi / 2 := by linarith
  have hcos : 0 < Real.cos (770 / 499) := by
    apply Real.cos_pos_of_mem_Ioo
    constructor
    · linarith
    · exact hx_lt
  rw [Real.tan_eq_sin_div_cos, lt_div_iff hcos]
  have hrw : (770 : ℝ) / 499 = Real.pi / 2 - (Real.pi / 2 - 770 / 499) := by ring
  rw [hrw, Real.sin_pi_div_two_sub, Real.cos_pi_div_two_sub]
  apply cos_gt_25_sin
  · linarith
  · linarith

theorem tan_sample_right : Real.tan (790 / 499) < -25 := by
  have hπl : 3.141592 < Real.pi := Real.pi_gt_d6
  have hπu : Real.pi < 3.141593 := Real.pi_lt_d6
  norm_num at hπl hπu
  have hu_pos : 0 < (790 : ℝ) / 499 - Real.pi / 2 := by linarith
  have hsin_pos : 0 < Real.sin (790 / 499 - Real.pi / 2) := by
    apply Real.sin_pos_of_pos_of_lt_pi hu_pos
    linarith
  have hrw : (790 : ℝ) / 499 = (790 / 499 - Real.pi / 2) + Real.pi / 2 := by ring
  rw [Real.tan_eq_sin_div_cos, hrw, Real.sin_add_pi_div_two,
    Real.cos_add_pi_div_two]
  rw [div_lt_iff_of_neg (by linarith : -Real.sin (790 / 499 - Real.pi / 2) < 0)]
  have hneg : (-25 : ℝ) * -Real.sin (790 / 499 - Real.pi / 2) =
      25 * Real.sin (790 / 499 - Real.pi / 2) := by ring
  rw [hneg]
  apply cos_gt_25_sin hu_pos
  linarith

/-! ## The claims -/

/-- C1 (modelled from the spec, §4.7): the tangent series over (-10, 10)
with 500 points splits into more than one segment; no segment holds two
adjacent samples whose values flip sign with both magnitudes above the
near-boundary threshold; and concatenating the segments reproduces the
retained samples in order. -/
theorem grapher_C1 :
    1 < (splitSegments ((near_boundary_threshold : ℕ) : ℝ)
        ((List.range 500).map (fun i : ℕ =>
          ((-10 + 20 * i / 499 : ℝ), some (Real.tan (-10 + 20 * i / 499)))))).length ∧
    (∀ seg ∈ splitSegments ((near_boundary_threshold : ℕ) : ℝ)
        ((List.range 500).map (fun i : ℕ =>
          ((-10 + 20 * i / 499 : ℝ), some (Real.tan (-10 + 20 * i / 499))))),
      List.Chain' (fun a b : ℝ × ℝ =>
        ¬ poleBreak ((near_boundary_threshold : ℕ) : ℝ) a.2 b.2) seg) ∧
    (splitSegments ((near_boundary_threshold : ℕ) : ℝ)
        ((List.range 500).map (fun i : ℕ =>
          ((-10 + 20 * i / 499 : ℝ), some (Real.tan (-10 + 20 * i / 499)))))).flatten =
      retainedSamples ((List.range 500).map (fun i : ℕ =>
        ((-10 + 20 * i / 499 : ℝ), some (Real.tan (-10 + 20 * i / 499))))) := by
  set series : List (ℝ × Option ℝ) :=
    (List.range 500).map (fun i : ℕ =>
      ((-10 + 20 * i / 499 : ℝ), some (Real.tan (-10 + 20 * i / 499)))) with hser
  refine ⟨?_, splitSegments_chain _ series, splitSegments_flatten _ series⟩
  have hx1 : (-10 + 20 * ((288 : ℕ) : ℝ) / 499) = 770 / 499 := by norm_num
  have hx2 : (-10 + 20 * ((289 : ℕ) : ℝ) / 499) = 790 / 499 := by norm_num
  have h288 : series.get? 288 =
      some ((770 / 499 : ℝ), some (Real.tan (770 / 499))) := by
    show ((List.range 500).map _).get? 288 = _
    rw [List.get?_map, List.get?_range (by norm_num : 288 < 500)]
    rw [Option.map_some', hx1]
  have h289 : series.get? 289 =
      some ((790 / 499 : ℝ), some (Real.tan (790 / 499))) := by
    show ((List.range 500).map _).get? 289 = _
    rw [List.get?_map, List.get?_range (by norm_num : 289 < 500)]
    rw [Option.map_some', hx2]
  have hthr : ((near_boundary_threshold : ℕ) : ℝ) = 25 := by
    norm_num [near_boundary_threshold]
  have hbreak : poleBreak ((near_boundary_threshold : ℕ) : ℝ)
      (Real.tan (770 / 499)) (Real.tan (790 / 499)) := by
    rw [hthr]
    have h1 := tan_sample_left
    have h2 := tan_sample_right
    refine ⟨Or.inr ⟨by linarith, by linarith⟩, ?_, ?_⟩
    · rw [abs_of_pos (by linarith)]
      exact h1
    · rw [abs_of_neg (by linarith)]
      linarith
  exact splitSegments_two _ series 288 h288 h289 hbreak

/-- C2 (amended): the expander leaves a known function name applied to a
parenthesized argument intact for the 11 names that do not embed another
listed name or a digit tail — `sin`, `cos`, `tan`, `log`, `exp`, `sqrt`,
`abs`, `floor`, `ceil`, `round`, `sign` — while names such as `tanh` are
split (see the counterexample). -/
theorem grapher_C2 :
    add_implicit_multiplication "sin(x)" = "sin(x)" ∧
    add_implicit_multiplication "cos(x)" = "cos(x)" ∧
    add_implicit_multiplication "tan(x)" = "tan(x)" ∧
    add_implicit_multiplication "log(x)" = "log(x)" ∧
    add_implicit_multiplication "exp(x)" = "exp(x)" ∧
    add_implicit_multiplication "sqrt(x)" = "sqrt(x)" ∧
    add_implicit_multiplication "abs(x)" = "abs(x)" ∧
    add_implicit_multiplication "floor(x)" = "floor(x)" ∧
    add_implicit_multiplication "ceil(x)" = "ceil(x)" ∧
    add_implicit_multiplication "round(x)" = "round(x)" ∧
    add_implicit_multiplication "sign(x)" = "sign(x)" :=
  ⟨aim_sin, aim_cos, aim_tan, aim_log, aim_exp, aim_sqrt, aim_abs, aim_floor,
    aim_ceil, aim_round, aim_sign⟩

/-- C2 (counterexample): `tanh(x)` — one of the 19 function names applied to
a parenthesized argument — is split by the expander into `tan(h)*(x)`. -/
theorem grapher_C2_cex :
    add_implicit_multiplication "tanh(x)" = "tan(h)*(x)" ∧
    "tan(h)*(x)" ≠ "tanh(x)" :=
  ⟨aim_tanh, by decide⟩

/-- C3 (amended): on the non-implicit branch the classifier's validity flag
equals the validator's verdict on the PREPROCESSED expression (the two
operations agree only up to preprocessing; see the counterexample for the
raw-string reading). -/
theorem grapher_C3 (e : String)
    (hty : parse_expression_type (preprocess_expression e) ≠ "implicit") :
    (parse_and_classify_expression e).is_valid =
      (validate_expression (preprocess_expression e)).1 :=
  classify_agrees_validate e hty

/-- C3 witness at `x*y`. -/
theorem grapher_C3_witness :
    (parse_and_classify_expression "x*y").is_valid =
      (validate_expression (preprocess_expression "x*y")).1 :=
  grapher_C3 "x*y" (by rw [pre_xty]; decide)

/-- C3 (counterexample): `2x` is rejected by the validator (the raw string
does not parse) yet classified as valid, because the classifier first
preprocesses `2x` into `2*x`. -/
theorem grapher_C3_cex :
    validate_expression "2x" =
      (false, some "Syntax error: invalid decimal literal") ∧
    (parse_and_classify_expression "2x").is_valid = true := by
  refine ⟨rfl, ?_⟩
  rw [parse_and_classify_expression, pre_2x]
  rfl

/-- C4 (amended): a successful evaluation with `params = {}` returns a
scalar or an array of `len(x_values)`; whenever the compiled expression
mentions `x` the result is an array of exactly that length.  (The original
claim fails for constant expressions, which evaluate to 0-d scalars; see
the counterexample.) -/
theorem grapher_C4 (tm : TranscModel) (e : String) (xs : List PFloat)
    (r : Value) (h : evaluate_expression tm e xs (some []) = Except.ok r) :
    shapeOK xs.length r ∧
      (compiledMentionsX e = true →
        ∃ l, r = Value.vector l ∧ l.length = xs.length) :=
  evaluate_expression_shape tm e xs r h

/-- C4 witness: `evaluate("x^2", [], {})` succeeds with the empty array. -/
theorem grapher_C4_witness :
    shapeOK ([] : List PFloat).length (Value.vector ([] : List PFloat)) ∧
      (compiledMentionsX "x^2" = true →
        ∃ l, (Value.vector ([] : List PFloat) : Value) = Value.vector l ∧
          l.length = ([] : List PFloat).length) :=
  grapher_C4 transcZero "x^2" [] (Value.vector []) (by rfl)

/-- C4 (counterexample): the constant expression `5` evaluates over two
samples to the 0-d scalar `5.0`, not to an array of length 2. -/
theorem grapher_C4_cex :
    evaluate_expression transcZero "5" [some 1, some 2] (some []) =
      Except.ok (Value.scalar (some 5)) ∧
    ¬ ∃ l : List PFloat,
        evaluate_expression transcZero "5" [some 1, some 2] (some []) =
          Except.ok (Value.vector l) := by
  refine ⟨rfl, ?_⟩
  rintro ⟨l, hl⟩
  rw [show evaluate_expression transcZero "5" [some 1, some 2] (some []) =
      Except.ok (Value.scalar (some 5)) from rfl] at hl
  injection hl with h2
  exact Value.noConfusion h2

/-- C5: pointwise numeric failures stay at their own sample — evaluation
commutes with restriction to any single sample, so element `i` of an array
result is exactly what evaluating on the singleton `[x_values[i]]` yields
(invalid-marker elements included), and no element affects another. -/
theorem grapher_C5 (tm : TranscModel) (e : String) (xs : List PFloat)
    (params : Option (List (String × Flt))) (v : List PFloat) (i : ℕ)
    (hi : i < xs.length)
    (h : evaluate_expression tm e xs params = Except.ok (Value.vector v)) :
    evaluate_expression tm e [xs.getD i none] params =
      Except.ok (Value.vector [v.getD i none]) :=
  evaluate_expression_pointwise tm e xs params v i hi h

/-- C5 witness: `1/x` on `[0, 1]` marks sample 0 invalid while sample 1
restricts to a clean singleton evaluation. -/
theorem grapher_C5_witness :
    evaluate_expression transcZero "1/x" [some 1] (some []) =
      Except.ok (Value.vector [some 1]) :=
  grapher_C5 transcZero "1/x" [some 0, some 1] (some []) [none, some 1] 1
    (by decide) (by rfl)

/-- C6 (amended): for the axis-aligned equations `x = 5` and `y = -6` the
solver returns two samples whose constant coordinate is the literal, but the
free coordinate is `[num_points, -num_points]` — it does not span the given
domain, which the solver ignores entirely. -/
theorem grapher_C6 (d : Flt × Flt) (n : ℕ) :
    solve_implicit_equation "x = 5" d n =
      ImplicitResult.linePts [5, 5]
        [Flt.ofInt (Int.ofNat n), -(Flt.ofInt (Int.ofNat n))] ∧
    solve_implicit_equation "y = -6" d n =
      ImplicitResult.linePts [Flt.ofInt (Int.ofNat n), -(Flt.ofInt (Int.ofNat n))]
        [-6, -6] := by
  constructor
  · unfold solve_implicit_equation
    rw [pre_xeq5]
    rfl
  · unfold solve_implicit_equation
    rw [pre_yeqm6]
    rfl

/-- C6 (counterexample): with domain `(-3, 3)` and 360 points, `x = 5`
yields free coordinates `[360, -360]`, which are not the domain extremes. -/
theorem grapher_C6_cex :
    solve_implicit_equation "x = 5" (-3, 3) 360 =
      ImplicitResult.linePts [5, 5] [360, -360] ∧
    (360 : Flt) ≠ 3 ∧ (360 : Flt) ≠ -3 := by
  refine ⟨?_, by decide, by decide⟩
  unfold solve_implicit_equation
  rw [pre_xeq5]
  rfl

/-- C7: validation always returns a structured verdict — `(true, none)` or
`(false, some message)` — and `__import__('os')` is rejected by the
denylist with a message naming the unsupported construct. -/
theorem grapher_C7 :
    (∀ s : String, validate_expression s = (true, none) ∨
      ∃ m, validate_expression s = (false, some m)) ∧
    validate_expression "__import__('os')" =
      (false, some "Unsupported expression construct: __.*__") := by
  constructor
  · intro s
    rw [validate_expression]
    by_cases h1 : (parse_expression_type s ≠ "implicit" && s.data.contains '=') = true
    · rw [if_pos h1]
      exact Or.inr ⟨_, rfl⟩
    · rw [if_neg h1]
      cases hf : findUnsupported (s.data.map Char.toLower) with
      | some pat => exact Or.inr ⟨_, rfl⟩
      | none =>
        by_cases h2 : parse_expression_type s = "implicit"
        · rw [if_pos h2]
          by_cases h3 : (!s.data.contains '=') = true
          · rw [if_pos h3]
            exact Or.inr ⟨_, rfl⟩
          · rw [if_neg h3]
            cases hsp : splitFirstEq s.data with
            | mk l r =>
              simp only []
              cases hp1 : pyParse ⟨pyStrip l⟩ with
              | error e1 => exact Or.inr ⟨_, rfl⟩
              | ok t1 =>
                cases hp2 : pyParse ⟨pyStrip r⟩ with
                | error e2 => exact Or.inr ⟨_, rfl⟩
                | ok t2 => exact Or.inl rfl
        · rw [if_neg h2]
          cases hp : pyParse s with
          | error e1 => exact Or.inr ⟨_, rfl⟩
          | ok t => exact Or.inl rfl
  · rfl

/-- C8 (amended): the expander is a fixed point on its own output for the
canonical rewrites — digit juxtaposition (`2x`), function-letter
juxtaposition (`sinx`) and the already-expanded line form — though not for
every string (see the counterexample). -/
theorem grapher_C8 :
    add_implicit_multiplication (add_implicit_multiplication "2x") =
      add_implicit_multiplication "2x" ∧
    add_implicit_multiplication (add_implicit_multiplication "sinx") =
      add_implicit_multiplication "sinx" ∧
    add_implicit_multiplication (add_implicit_multiplication "x = 5") =
      add_implicit_multiplication "x = 5" := by
  refine ⟨?_, ?_, ?_⟩
  · rw [aim_2x, aim_2Sx]
  · rw [aim_sinx, aim_sin]
  · rw [aim_xeq5, aim_xeq5]

/-- C8 (counterexample): `atan2` expands to `atan*2`, which expands again to
`a*tan*2` — the expander is not idempotent. -/
theorem grapher_C8_cex :
    add_implicit_multiplication (add_implicit_multiplication "atan2") ≠
      add_implicit_multiplication "atan2" := by
  rw [aim_atan2, aim_atanS2]
  decide

/-- C9: the circle equation is recognized exactly (`radius² = 4`), and every
point of the emitted series `(√4·cos θᵢ, √4·sin θᵢ)` satisfies
`|x² + y² - 4| < 1e-6`. -/
theorem grapher_C9 :
    solve_implicit_equation "x^2 + y^2 = 4" (-3, 3) 360 =
      ImplicitResult.circle 4 ∧
    ∀ i : ℕ, i < 360 →
      |(Real.sqrt 4 * Real.cos (2 * Real.pi * i / 359)) ^ 2 +
        (Real.sqrt 4 * Real.sin (2 * Real.pi * i / 359)) ^ 2 - 4| <
        1 / 1000000 := by
  constructor
  · unfold solve_implicit_equation
    rw [circFull]
    rfl
  · intro i _
    have h4 : Real.sqrt 4 ^ 2 = 4 := Real.sq_sqrt (by norm_num)
    have hpyth := Real.sin_sq_add_cos_sq (2 * Real.pi * i / 359)
    have hzero : (Real.sqrt 4 * Real.cos (2 * Real.pi * i / 359)) ^ 2 +
        (Real.sqrt 4 * Real.sin (2 * Real.pi * i / 359)) ^ 2 - 4 = 0 := by
      have : (Real.sqrt 4 * Real.cos (2 * Real.pi * i / 359)) ^ 2 +
          (Real.sqrt 4 * Real.sin (2 * Real.pi * i / 359)) ^ 2 =
          Real.sqrt 4 ^ 2 * (Real.sin (2 * Real.pi * i / 359) ^ 2 +
            Real.cos (2 * Real.pi * i / 359) ^ 2) := by ring
      rw [this, hpyth, h4]
      ring
    rw [hzero]
    norm_num

/-- C10: with `params` omitted (`None`), evaluating `a*x` raises (the
membership test on `None` becomes the re-raised `ValueError`), while with
the explicit empty mapping `{}` the free parameter `a` defaults to `0.0`. -/
theorem grapher_C10 :
    evaluate_expression transcZero "a*x" [some 1, some 2] none =
      Except.error
        "Expression evaluation failed: argument of type 'NoneType' is not iterable" ∧
    evaluate_expression transcZero "a*x" [some 1, some 2] (some []) =
      Except.ok (Value.vector [some 0, some 0]) :=
  ⟨rfl, rfl⟩

end Grapher
